import Mathlib

/-! # network_scanner: a shallow embedding of the scanning core

The development follows the Go sources `main.go`, `models/device.go`,
`scanner/discovery.go`, `scanner/ports.go` and `utils/network.go`.

Conventions of the embedding.

* Go `int` is `Int`.  The counters of `generateNetworkSummary` are bounded by
  the number of findings held in memory, far below `2^63 / 5`, so the 64-bit
  wrap-around of Go `int` never comes into play and is not modelled.
* A Go `byte` is a `Nat` below 256; `ip[j]++` is `(ip[j] + 1) % 256`.
* Go strings that are only compared or copied are `String`; strings that are
  searched and sliced by byte offset (banners, versions) are byte lists.
* Outcomes of network and process calls are inputs of the model.
-/

namespace NetworkScanner

/-! ## Data model (`models/device.go`) -/

/-- Byte sequence of a Go string. -/
abbrev Bytes := List Nat

/-- Bytes of an ASCII literal. -/
def ascii (s : String) : Bytes := s.data.map Char.toNat

/-- Record `models.PortInfo`. -/
structure PortInfo where
  Port : Int
  Service : String
  Banner : Bytes
  State : String
  Version : Bytes
  deriving DecidableEq, Repr

/-- Record `models.Vulnerability`; the Go field `Type` is `VulnType` here. -/
structure Vulnerability where
  Severity : String
  VulnType : String
  Description : String
  Port : Int
  CVE : List String
  Remediation : String
  Impact : String
  deriving DecidableEq, Repr

/-- Record `models.Device` (the timestamp `LastSeen` is left out). -/
structure Device where
  IP : String
  MAC : String
  Hostname : String
  Vendor : String
  OpenPorts : List PortInfo
  OS : String
  Latency : String
  Vulnerabilities : List Vulnerability
  IPVersion : String
  deriving DecidableEq, Repr

/-- Record `models.NetworkSummary`; the Go map `VulnsByType` is an association list. -/
structure NetworkSummary where
  TotalDevices : Int
  TotalOpenPorts : Int
  TotalVulns : Int
  CriticalVulns : Int
  HighVulns : Int
  MediumVulns : Int
  LowVulns : Int
  VulnsByType : List (String × Int)
  MostVulnerable : String
  ScanDuration : String
  NetworkRiskScore : Int
  deriving DecidableEq, Repr

/-! ## Network summary (`main.go`, `generateNetworkSummary`) -/

/-- Map update `m[k]++` on an association list (a missing key counts as 0). -/
def mapIncr : List (String × Int) → String → List (String × Int)
  | [], k => [(k, 1)]
  | (k', n) :: rest, k => if k' = k then (k', n + 1) :: rest else (k', n) :: mapIncr rest k

/-- Body of the inner loop `for _, vuln := range device.Vulnerabilities`. -/
def countVuln (summary : NetworkSummary) (vuln : Vulnerability) : NetworkSummary :=
  let summary := { summary with TotalVulns := summary.TotalVulns + 1 }
  let summary := { summary with VulnsByType := mapIncr summary.VulnsByType vuln.VulnType }
  if vuln.Severity = "CRITICAL" then
    { summary with CriticalVulns := summary.CriticalVulns + 1 }
  else if vuln.Severity = "HIGH" then
    { summary with HighVulns := summary.HighVulns + 1 }
  else if vuln.Severity = "MEDIUM" then
    { summary with MediumVulns := summary.MediumVulns + 1 }
  else if vuln.Severity = "LOW" then
    { summary with LowVulns := summary.LowVulns + 1 }
  else
    summary

/-- Variables live across the outer loop of `generateNetworkSummary`. -/
structure SummaryLoop where
  summary : NetworkSummary
  maxVulns : Int
  mostVulnIP : String
  deriving DecidableEq, Repr

/-- Body of the outer loop `for _, device := range devices`. -/
def deviceStep (st : SummaryLoop) (device : Device) : SummaryLoop :=
  let summary :=
    { st.summary with TotalOpenPorts := st.summary.TotalOpenPorts + device.OpenPorts.length }
  let st :=
    if (device.Vulnerabilities.length : Int) > st.maxVulns then
      { st with maxVulns := device.Vulnerabilities.length, mostVulnIP := device.IP }
    else st
  { st with summary := device.Vulnerabilities.foldl countVuln summary }

/-- Risk computation at the end of `generateNetworkSummary`. -/
def networkRiskScore (summary : NetworkSummary) : Int :=
  let riskScore : Int := 0
  let riskScore := if summary.CriticalVulns > 0 then riskScore + 40 else riskScore
  let riskScore := riskScore + summary.HighVulns * 5
  let riskScore := riskScore + summary.MediumVulns * 2
  let riskScore := riskScore + summary.LowVulns
  if riskScore > 100 then 100 else riskScore

/-- Function `generateNetworkSummary`; `durationString` stands for `duration.String()`. -/
def generateNetworkSummary (devices : List Device) (durationString : String) : NetworkSummary :=
  let summary : NetworkSummary :=
    { TotalDevices := devices.length, TotalOpenPorts := 0, TotalVulns := 0,
      CriticalVulns := 0, HighVulns := 0, MediumVulns := 0, LowVulns := 0,
      VulnsByType := [], MostVulnerable := "", ScanDuration := durationString,
      NetworkRiskScore := 0 }
  let st := devices.foldl deviceStep { summary := summary, maxVulns := 0, mostVulnIP := "" }
  let summary := { st.summary with MostVulnerable := st.mostVulnIP }
  { summary with NetworkRiskScore := networkRiskScore summary }

/-- All findings of all devices, in list order. -/
def allFindings : List Device → List Vulnerability
  | [] => []
  | d :: ds => d.Vulnerabilities ++ allFindings ds

/-- Number of findings with the given severity string. -/
def severityCount (sev : String) (vs : List Vulnerability) : Int :=
  ((vs.filter (fun v => v.Severity = sev)).length : Int)

/-- Aggregate score in the words of the specification:
`clamp(0, 100, 40 if any CRITICAL else 0, plus 5×HIGH, plus 2×MEDIUM, plus 1×LOW)`. -/
def specNetworkScore (devices : List Device) : Int :=
  let vs := allFindings devices
  min 100 ((if vs.any (fun v => v.Severity = "CRITICAL") then 40 else 0)
    + 5 * severityCount "HIGH" vs + 2 * severityCount "MEDIUM" vs + 1 * severityCount "LOW" vs)

/-- A finding that carries only a severity. -/
def finding (sev : String) : Vulnerability :=
  { Severity := sev, VulnType := "", Description := "", Port := 0, CVE := [],
    Remediation := "", Impact := "" }

/-- A device that carries only an address and findings. -/
def deviceWith (ip : String) (vs : List Vulnerability) : Device :=
  { IP := ip, MAC := "", Hostname := "", Vendor := "", OpenPorts := [], OS := "",
    Latency := "", Vulnerabilities := vs, IPVersion := "IPv4" }

/-- The device with findings `vs` inserted in place of its own. -/
def Device.withFindings (d : Device) (vs : List Vulnerability) : Device :=
  { d with Vulnerabilities := vs }

/-! ## Address arithmetic (`utils/network.go`) -/

/-- Loop of `IncrementIP`: `for j := len(ip) - 1; j >= 0; j--`, the second argument being
`j + 1`.  The body is `ip[j]++` on a byte, then `break` when `ip[j] > 0`. -/
def incrementLoop (ip : Bytes) : Nat → Bytes
  | 0 => ip
  | j + 1 =>
    let ip := ip.set j ((ip.getD j 0 + 1) % 256)
    if ip.getD j 0 > 0 then ip else incrementLoop ip j

/-- Function `IncrementIP` (the slice is updated in place; here the new contents are returned). -/
def IncrementIP (ip : Bytes) : Bytes := incrementLoop ip ip.length

/-- Big-endian integer value of a byte sequence. -/
def beValue (ip : Bytes) : Nat := ip.foldl (fun acc b => acc * 256 + b) 0

/-- Big-endian encoding of `v` in `n` bytes. -/
def beEncode : Nat → Nat → Bytes
  | 0, _ => []
  | n + 1, v => beEncode n (v / 256) ++ [v % 256]

/-- Every element is a byte. -/
def IsBytes (ip : Bytes) : Prop := ∀ b ∈ ip, b < 256

instance (ip : Bytes) : Decidable (IsBytes ip) := by
  unfold IsBytes; infer_instance

/-! ## Ranges of the Go standard library (`net.IP`, `net.IPNet`), as used by `DiscoverDevices` -/

/-- Constant `v4InV6Prefix` of package `net`. -/
def v4InV6Prefix : Bytes := [0, 0, 0, 0, 0, 0, 0, 0, 0, 0, 0xff, 0xff]

/-- Method `net.IP.To4`; `none` is the nil result. -/
def To4 (ip : Bytes) : Option Bytes :=
  if ip.length = 4 then some ip
  else if ip.length = 16 ∧ (ip.take 10).all (fun b => b == 0) ∧ ip.getD 10 0 = 0xff
      ∧ ip.getD 11 0 = 0xff then
    some (ip.drop 12)
  else none

/-- Method `net.IP.Mask`; the nil result is the empty list. -/
def Mask (ip mask : Bytes) : Bytes :=
  let mask :=
    if mask.length = 16 ∧ ip.length = 4 ∧ (mask.take 12).all (fun b => b == 0xff) then
      mask.drop 12
    else mask
  let ip :=
    if mask.length = 4 ∧ ip.length = 16 ∧ ip.take 12 = v4InV6Prefix then ip.drop 12 else ip
  let n := ip.length
  if n ≠ mask.length then []
  else (List.range n).map (fun i => ip.getD i 0 &&& mask.getD i 0)

/-- Function `net.CIDRMask`; the nil result is the empty list. -/
def CIDRMask (ones bits : Int) : Bytes :=
  if bits ≠ 8 * 4 ∧ bits ≠ 8 * 16 then []
  else if ones < 0 ∨ ones > bits then []
  else
    let l := (bits / 8).toNat
    (List.range l).map (fun i =>
      let n := ones.toNat - 8 * i
      if n ≥ 8 then 0xff else 255 - (0xff >>> n))

/-- Record `net.IPNet`. -/
structure IPNet where
  IP : Bytes
  Mask : Bytes
  deriving DecidableEq, Repr

/-- Function `networkNumberAndMask` of package `net`. -/
def networkNumberAndMask (n : IPNet) : Bytes × Bytes :=
  match To4 n.IP with
  | some ip =>
    if n.Mask.length = 4 then (if ip.length ≠ 4 then ([], []) else (ip, n.Mask))
    else if n.Mask.length = 16 then (ip, if ip.length = 4 then n.Mask.drop 12 else n.Mask)
    else ([], [])
  | none =>
    if n.IP.length ≠ 16 then ([], [])
    else if n.Mask.length = 4 then ([], [])
    else if n.Mask.length = 16 then (n.IP, n.Mask)
    else ([], [])

/-- Method `net.IPNet.Contains`. -/
def IPNet.Contains (n : IPNet) (ip : Bytes) : Bool :=
  let (nn, m) := networkNumberAndMask n
  let ip := match To4 ip with
    | some x => x
    | none => ip
  let l := ip.length
  if l ≠ nn.length then false
  else (List.range l).all (fun i => nn.getD i 0 &&& m.getD i 0 == ip.getD i 0 &&& m.getD i 0)

/-- Function `net.ParseCIDR` after the text of the range has been read as an address
`addr` (4 or 16 bytes) and a prefix length `ones`; `none` is the parse error. -/
def ParseCIDR (addr : Bytes) (ones : Int) : Option (Bytes × IPNet) :=
  if addr.length ≠ 4 ∧ addr.length ≠ 16 then none
  else
    let bitLen : Int := 8 * addr.length
    if ones < 0 ∨ ones > bitLen then none
    else
      let m := CIDRMask ones bitLen
      let addr16 := if addr.length = 4 then v4InV6Prefix ++ addr else addr
      some (addr16, { IP := Mask addr16 m, Mask := m })

/-! ## Discovery (`scanner/discovery.go`) -/

/-- Enumeration loop of `DiscoverDevices`,
`for ip := ip.Mask(ipnet.Mask); ipnet.Contains(ip); utils.IncrementIP(ip)`, with the
addresses handed to the probes in order.  The loop has no bound of its own: `none` means
that it is still running after `fuel` iterations. -/
def discoverLoop (ipnet : IPNet) : Nat → Bytes → Option (List Bytes)
  | 0, _ => none
  | fuel + 1, ip =>
    if ipnet.Contains ip then (discoverLoop ipnet fuel (IncrementIP ip)).map (fun r => ip :: r)
    else some []

/-- Addresses probed by `DiscoverDevices` for a range given as address and prefix length;
a range that does not parse makes the function return before the loop. -/
def discoverAddresses (addr : Bytes) (ones : Int) (fuel : Nat) : Option (List Bytes) :=
  match ParseCIDR addr ones with
  | none => some []
  | some (ip, ipnet) => discoverLoop ipnet fuel (Mask ip ipnet.Mask)

/-! ## Strings of the Go standard library (`strings`), as used by `scanner/ports.go` -/

/-- Search of `strings.Index` from offset `i` on. -/
def strings.indexFrom (sub : Bytes) : Bytes → Nat → Int
  | [], i => if sub = [] then (i : Int) else -1
  | c :: t, i => if sub.isPrefixOf (c :: t) then (i : Int) else strings.indexFrom sub t (i + 1)

/-- Function `strings.Index`: offset of the first occurrence of `sub` in `s`, or -1. -/
def strings.Index (s sub : Bytes) : Int := strings.indexFrom sub s 0

/-- Function `strings.Contains`, which is `Index(s, substr) >= 0`. -/
def strings.Contains (s sub : Bytes) : Bool := decide (strings.Index s sub ≥ 0)

/-- Function `strings.ToLower`.  An ASCII-only string is mapped byte by byte; any other
string goes through the Unicode tables, which are the argument `lowerRunes`. -/
def strings.ToLower (lowerRunes : Bytes → Bytes) (s : Bytes) : Bytes :=
  if s.all (fun c => decide (c < 0x80)) then
    s.map (fun c => if 0x41 ≤ c ∧ c ≤ 0x5a then c + 0x20 else c)
  else lowerRunes s

/-- Slice expression `s[lo:hi]` of a Go string; `none` is the run-time panic raised when
the bounds are not `0 <= lo <= hi <= len(s)`. -/
def slice (s : Bytes) (lo hi : Int) : Option Bytes :=
  if 0 ≤ lo ∧ lo ≤ hi ∧ hi ≤ (s.length : Int) then
    some ((s.drop lo.toNat).take (hi.toNat - lo.toNat))
  else none

/-! ## Port scan (`scanner/ports.go`) -/

/-- Table `ServiceMap`; a missing key reads as the empty string. -/
def ServiceMap (port : Int) : String :=
  if port = 20 then "FTP-Data" else if port = 21 then "FTP" else if port = 22 then "SSH"
  else if port = 23 then "Telnet" else if port = 25 then "SMTP" else if port = 53 then "DNS"
  else if port = 67 then "DHCP-Server" else if port = 68 then "DHCP-Client"
  else if port = 69 then "TFTP" else if port = 80 then "HTTP" else if port = 110 then "POP3"
  else if port = 111 then "RPC" else if port = 123 then "NTP" else if port = 135 then "MSRPC"
  else if port = 137 then "NetBIOS-NS" else if port = 138 then "NetBIOS-DGM"
  else if port = 139 then "NetBIOS-SSN" else if port = 143 then "IMAP"
  else if port = 161 then "SNMP" else if port = 162 then "SNMP-Trap"
  else if port = 389 then "LDAP" else if port = 443 then "HTTPS" else if port = 445 then "SMB"
  else if port = 465 then "SMTPS" else if port = 514 then "Syslog" else if port = 515 then "LPD"
  else if port = 587 then "SMTP-Submission" else if port = 636 then "LDAPS"
  else if port = 993 then "IMAPS" else if port = 995 then "POP3S"
  else if port = 1080 then "SOCKS" else if port = 1194 then "OpenVPN"
  else if port = 1433 then "MSSQL" else if port = 1521 then "Oracle"
  else if port = 1723 then "PPTP" else if port = 3306 then "MySQL"
  else if port = 3389 then "RDP" else if port = 5060 then "SIP"
  else if port = 5061 then "SIP-TLS" else if port = 5432 then "PostgreSQL"
  else if port = 5900 then "VNC" else if port = 6379 then "Redis"
  else if port = 8000 then "HTTP-Alt" else if port = 8080 then "HTTP-Proxy"
  else if port = 8443 then "HTTPS-Alt" else if port = 8888 then "HTTP-Alt2"
  else if port = 9000 then "HTTP-Alt3" else if port = 9090 then "WebSM"
  else if port = 27017 then "MongoDB" else if port = 50000 then "DB2"
  else ""

/-- Function `min` of `scanner/ports.go`. -/
def scanner.min (a b : Int) : Int := if a < b then a else b

/-- Function `extractVersion`; `none` is a run-time panic of one of its slice expressions.
The nested `if A { if B { return } }` blocks that fall through are written `if A ∧ B`. -/
def extractVersion (lowerRunes : Bytes → Bytes) (banner : Bytes) (port : Int) : Option Bytes :=
  let banner := strings.ToLower lowerRunes banner
  if strings.Contains banner (ascii "ssh") then
    let idx := strings.Index banner (ascii "openssh")
    if idx ≠ -1 ∧ (banner.length : Int) > idx + 20 then slice banner idx (idx + 20)
    else some (ascii "SSH detected")
  else if strings.Contains banner (ascii "apache") ∧
      strings.Index banner (ascii "apache/") ≠ -1 ∧
      (banner.length : Int) > strings.Index banner (ascii "apache/") + 15 then
    slice banner (strings.Index banner (ascii "apache/"))
      (strings.Index banner (ascii "apache/") + 15)
  else if strings.Contains banner (ascii "nginx") ∧
      strings.Index banner (ascii "nginx/") ≠ -1 ∧
      (banner.length : Int) > strings.Index banner (ascii "nginx/") + 15 then
    slice banner (strings.Index banner (ascii "nginx/"))
      (strings.Index banner (ascii "nginx/") + 15)
  else if port = 21 ∧ strings.Contains banner (ascii "ftp") then
    slice banner 0 (scanner.min banner.length 50)
  else if port = 3306 then some (ascii "MySQL detected")
  else if port = 5432 then some (ascii "PostgreSQL detected")
  else some (ascii "")

/-- Function `sendProbe`: the bytes written to the connection. -/
def sendProbe (port : Int) : Bytes :=
  if port = 80 ∨ port = 8080 ∨ port = 8000 ∨ port = 8888 then ascii "GET / HTTP/1.0\r\n\r\n"
  else if port = 21 then []
  else if port = 25 ∨ port = 587 then ascii "EHLO scanner\r\n"
  else if port = 110 then ascii "USER test\r\n"
  else if port = 22 then []
  else []

/-- Function `utils.IsIPv6`. -/
def IsIPv6 (ip : String) : Bool := ip.data.contains ':'

/-- Function `utils.FormatAddress`. -/
def FormatAddress (ip : String) (port : Int) : String :=
  if ip.data.contains ':' then "[" ++ ip ++ "]:" ++ toString port
  else ip ++ ":" ++ toString port

/-- Outcome of `net.DialTimeout`: the error is nil only when the connection is established. -/
inductive DialResult where
  | connected
  | refused
  | timedOut
  deriving DecidableEq, Repr

/-- Test `err == nil` on the outcome of a dial. -/
def DialResult.errIsNil : DialResult → Bool
  | .connected => true
  | .refused => false
  | .timedOut => false

/-- Behaviour of everything outside the program during one run. -/
structure World where
  /-- result of `net.DialTimeout("tcp", address, _)` -/
  dial : String → DialResult
  /-- bytes `buf[:n]` returned by `conn.Read` on the connection to `address` after the
  given probe was written (empty when `n <= 0`) -/
  read : String → Bytes → Bytes
  /-- whether `cmd.Run()` of the given command line returns a nil error -/
  run : List String → Bool
  /-- value of `runtime.GOOS` -/
  goos : String
  /-- function `strings.TrimSpace` -/
  trimSpace : Bytes → Bytes
  /-- function `strings.Map(unicode.ToLower, _)` on strings that are not pure ASCII -/
  lowerRunes : Bytes → Bytes

/-- Body of one goroutine of `ScanPorts`, up to the locked append: `none` is a panic,
`some none` a failed connection (nothing is appended), `some (some r)` the record that the
goroutine appends to `openPorts`. -/
def scanWorker (w : World) (ip : String) (grabBanner : Bool) (p : Int) :
    Option (Option PortInfo) :=
  let address := FormatAddress ip p
  if (w.dial address).errIsNil then
    let portInfo : PortInfo :=
      { Port := p, Service := ServiceMap p, Banner := [], State := "open", Version := [] }
    let portInfo :=
      if portInfo.Service = "" then { portInfo with Service := "unknown" } else portInfo
    if grabBanner then
      let buf := w.read address (sendProbe p)
      if buf.length > 0 then
        let banner := w.trimSpace buf
        match extractVersion w.lowerRunes banner p with
        | some version => some (some { portInfo with Banner := banner, Version := version })
        | none => none
      else some (some portInfo)
    else some (some portInfo)
  else some none

/-- Goroutines of `ScanPorts` reaching their locked append one after the other.  The first
argument counts the goroutines still to finish, `pending` lists their ports, and the head of
`sched` (taken modulo the number of pending goroutines) picks the one that finishes next. -/
def runWorkers (worker : Int → Option (Option PortInfo)) :
    Nat → List Int → List Nat → List PortInfo → Option (List PortInfo)
  | 0, _, _, openPorts => some openPorts
  | n + 1, pending, sched, openPorts =>
    let k := sched.headD 0 % pending.length
    match worker (pending.getD k 0) with
    | none => none
    | some none => runWorkers worker n (pending.eraseIdx k) sched.tail openPorts
    | some (some portInfo) =>
      runWorkers worker n (pending.eraseIdx k) sched.tail (openPorts ++ [portInfo])

/-- Function `ScanPorts`: one goroutine per candidate port, each appending under the mutex;
`sched` fixes the order in which the goroutines finish.  `none` is a panic. -/
def ScanPorts (w : World) (sched : List Nat) (ip : String) (ports : List Int)
    (grabBanner : Bool) : Option (List PortInfo) :=
  runWorkers (scanWorker w ip grabBanner) ports.length ports sched []

/-! ## Liveness (`scanner/discovery.go`) -/

/-- Command line built by `isHostAlive` for the echo probe. -/
def pingCommand (goos ip : String) : List String :=
  if goos = "windows" then ["ping", "-n", "1", "-w", "500", ip]
  else if IsIPv6 ip then ["ping6", "-c", "1", "-W", "1", ip]
  else ["ping", "-c", "1", "-W", "1", ip]

/-- Function `isHostAlive`: the verdict, and the command lines that were run. -/
def isHostAlive (w : World) (ip : String) : Bool × List (List String) :=
  let address := FormatAddress ip 80
  if (w.dial address).errIsNil then (true, [])
  else
    let cmd := pingCommand w.goos ip
    (w.run cmd, [cmd])

/-- A world in which every dial has the outcome `d`, every command the outcome `echo`,
and nothing is ever read. -/
def constWorld (d : DialResult) (echo : Bool) : World :=
  { dial := fun _ => d, read := fun _ _ => [], run := fun _ => echo, goos := "linux",
    trimSpace := id, lowerRunes := id }

/-! ## Port-set selection (`main.go`, `scanner/ports.go`) -/

/-- Variable `scanner.CommonPorts`. -/
def CommonPorts : List Int :=
  [20, 21, 22, 23, 25, 53, 67, 68, 69, 80, 110, 111, 123, 135, 137, 138, 139,
   143, 161, 162, 389, 443, 445, 465, 514, 515, 587, 636, 993, 995, 1080,
   1194, 1433, 1521, 1723, 3306, 3389, 5060, 5061, 5432, 5900, 6379, 8000,
   8080, 8443, 8888, 9000, 9090, 27017, 50000]

/-- Variable `scanner.AllPorts`: `ports[i] = i + 1` for `i < 65535`. -/
def AllPorts : List Int := (List.range 65535).map (fun i => (i : Int) + 1)

/-- Block "Determine ports to scan" of `main`: the value of `portsToScan` for the flags
`-deep` and `-ports`, and the line printed by the `default` branch of the switch. -/
def portsToScan (deep : Bool) (portRange : String) : List Int × Option String :=
  if deep then (AllPorts, none)
  else if portRange = "common" then (CommonPorts, none)
  else if portRange = "all" then (AllPorts, none)
  else (CommonPorts, some "Custom port list not fully implemented, using common ports")

/-! ## Discovery, whole function (`scanner/discovery.go`, `main.go`) -/

/-- Calls made by a discovery goroutine besides the liveness probe, and the renderings
that `DiscoverDevices` relies on. -/
structure Resolver where
  /-- method `net.IP.String` -/
  ipString : Bytes → String
  /-- the formatted elapsed time of the liveness probe of an address -/
  latency : String → String
  /-- function `utils.ResolveHostname` -/
  hostname : String → String
  /-- function `utils.GetMACAddress` -/
  mac : String → String
  /-- function `utils.LookupVendor` -/
  vendor : String → String

/-- Body of one goroutine of `DiscoverDevices`: the device it appends, if the host is live. -/
def discoverWorker (w : World) (r : Resolver) (ipStr : String) : Option Device :=
  if (isHostAlive w ipStr).1 then
    some
      { IP := ipStr, MAC := r.mac ipStr, Hostname := r.hostname ipStr,
        Vendor := r.vendor (r.mac ipStr), OpenPorts := [], OS := "",
        Latency := r.latency ipStr, Vulnerabilities := [],
        IPVersion := if IsIPv6 ipStr then "IPv6" else "IPv4" }
  else none

/-- Order in which goroutines started for `pending` reach their locked append: the head of
`sched`, modulo the number of goroutines still running, picks the next one to finish. -/
def finishOrder : Nat → List String → List Nat → List String
  | 0, _, _ => []
  | n + 1, pending, sched =>
    let k := sched.headD 0 % pending.length
    pending.getD k "" :: finishOrder n (pending.eraseIdx k) sched.tail

/-- A range specification as `net.ParseCIDR` reads it: `none` when the text is not an
address followed by `/` and a decimal number, else the address bytes and the number. -/
abbrev RangeSpec := Option (Bytes × Int)

/-- Call `net.ParseCIDR(cidr)` of `DiscoverDevices`; `none` is `err != nil`. -/
def parseRange (cidr : RangeSpec) : Option (Bytes × IPNet) :=
  match cidr with
  | none => none
  | some (addr, ones) => ParseCIDR addr ones

/-- Function `DiscoverDevices`: the returned devices, and the addresses on which
`isHostAlive` was called.  `none` means that the enumeration loop is still running after
`fuel` iterations.  The function has a single result, a slice of devices; on a parse error
it returns nil, which is the empty slice. -/
def DiscoverDevices (w : World) (r : Resolver) (sched : List Nat) (cidr : RangeSpec)
    (fuel : Nat) : Option (List Device × List String) :=
  match parseRange cidr with
  | none => some ([], [])
  | some (ip, ipnet) =>
    match discoverLoop ipnet fuel (Mask ip ipnet.Mask) with
    | none => none
    | some addrs =>
      let ipStrs := addrs.map r.ipString
      some ((finishOrder ipStrs.length ipStrs sched).filterMap (discoverWorker w r), ipStrs)

/-- What `main` prints after phase 1. -/
inductive DiscoveryReport where
  /-- the line "No devices found on the network", after which `main` returns -/
  | noDevicesFound
  /-- the line "Found n device(s) in ...", after which the scan goes on -/
  | found (n : Nat)
  deriving DecidableEq, Repr

/-- Phase 1 of `main`: the call of `scanner.DiscoverDevices` and the test
`len(devices) == 0`. -/
def mainPhase1 (w : World) (r : Resolver) (sched : List Nat) (cidr : RangeSpec)
    (fuel : Nat) : Option DiscoveryReport :=
  match DiscoverDevices w r sched cidr fuel with
  | none => none
  | some (devices, _) =>
    if devices.length = 0 then some DiscoveryReport.noDevicesFound
    else some (DiscoveryReport.found devices.length)

/-- A resolver that renders an address as its decimal bytes joined by dots and finds
no name, hardware address or vendor. -/
def plainResolver : Resolver :=
  { ipString := fun ip => ".".intercalate (ip.map toString), latency := fun _ => "",
    hostname := fun _ => "", mac := fun _ => "", vendor := fun _ => "" }

/-! ## Theorems -/

/-! ### Network summary -/

theorem severityCount_cons (sev : String) (v : Vulnerability) (vs : List Vulnerability) :
    severityCount sev (v :: vs) = (if v.Severity = sev then 1 else 0) + severityCount sev vs := by
  unfold severityCount
  by_cases h : v.Severity = sev
  · simp [h, List.filter_cons]; ring
  · simp [h, List.filter_cons]

theorem severityCount_nil (sev : String) : severityCount sev [] = 0 := rfl

theorem severityCount_append (sev : String) (xs ys : List Vulnerability) :
    severityCount sev (xs ++ ys) = severityCount sev xs + severityCount sev ys := by
  simp [severityCount]

theorem severityCount_nonneg (sev : String) (vs : List Vulnerability) :
    0 ≤ severityCount sev vs := by
  simp [severityCount]

theorem countVuln_counts (s : NetworkSummary) (v : Vulnerability) :
    (countVuln s v).CriticalVulns
        = s.CriticalVulns + (if v.Severity = "CRITICAL" then 1 else 0) ∧
    (countVuln s v).HighVulns = s.HighVulns + (if v.Severity = "HIGH" then 1 else 0) ∧
    (countVuln s v).MediumVulns = s.MediumVulns + (if v.Severity = "MEDIUM" then 1 else 0) ∧
    (countVuln s v).LowVulns = s.LowVulns + (if v.Severity = "LOW" then 1 else 0) := by
  unfold countVuln
  by_cases h1 : v.Severity = "CRITICAL"
  · simp [h1]
  by_cases h2 : v.Severity = "HIGH"
  · simp [h2]
  by_cases h3 : v.Severity = "MEDIUM"
  · simp [h3]
  by_cases h4 : v.Severity = "LOW"
  · simp [h4]
  simp [h1, h2, h3, h4]

theorem countVuln_fold_counts (vs : List Vulnerability) (s : NetworkSummary) :
    (vs.foldl countVuln s).CriticalVulns = s.CriticalVulns + severityCount "CRITICAL" vs ∧
    (vs.foldl countVuln s).HighVulns = s.HighVulns + severityCount "HIGH" vs ∧
    (vs.foldl countVuln s).MediumVulns = s.MediumVulns + severityCount "MEDIUM" vs ∧
    (vs.foldl countVuln s).LowVulns = s.LowVulns + severityCount "LOW" vs := by
  induction vs generalizing s with
  | nil => simp [severityCount_nil]
  | cons v vs ih =>
    obtain ⟨h1, h2, h3, h4⟩ := ih (countVuln s v)
    obtain ⟨c1, c2, c3, c4⟩ := countVuln_counts s v
    rw [List.foldl_cons, h1, h2, h3, h4, c1, c2, c3, c4]
    simp only [severityCount_cons]
    refine ⟨?_, ?_, ?_, ?_⟩ <;> ring

theorem deviceStep_counts (st : SummaryLoop) (d : Device) :
    (deviceStep st d).summary.CriticalVulns
        = st.summary.CriticalVulns + severityCount "CRITICAL" d.Vulnerabilities ∧
    (deviceStep st d).summary.HighVulns
        = st.summary.HighVulns + severityCount "HIGH" d.Vulnerabilities ∧
    (deviceStep st d).summary.MediumVulns
        = st.summary.MediumVulns + severityCount "MEDIUM" d.Vulnerabilities ∧
    (deviceStep st d).summary.LowVulns
        = st.summary.LowVulns + severityCount "LOW" d.Vulnerabilities := by
  unfold deviceStep
  simpa using countVuln_fold_counts d.Vulnerabilities
    { st.summary with TotalOpenPorts := st.summary.TotalOpenPorts + d.OpenPorts.length }

theorem deviceStep_fold_counts (ds : List Device) (st : SummaryLoop) :
    (ds.foldl deviceStep st).summary.CriticalVulns
        = st.summary.CriticalVulns + severityCount "CRITICAL" (allFindings ds) ∧
    (ds.foldl deviceStep st).summary.HighVulns
        = st.summary.HighVulns + severityCount "HIGH" (allFindings ds) ∧
    (ds.foldl deviceStep st).summary.MediumVulns
        = st.summary.MediumVulns + severityCount "MEDIUM" (allFindings ds) ∧
    (ds.foldl deviceStep st).summary.LowVulns
        = st.summary.LowVulns + severityCount "LOW" (allFindings ds) := by
  induction ds generalizing st with
  | nil => simp [allFindings, severityCount_nil]
  | cons d ds ih =>
    obtain ⟨h1, h2, h3, h4⟩ := ih (deviceStep st d)
    obtain ⟨c1, c2, c3, c4⟩ := deviceStep_counts st d
    rw [List.foldl_cons, h1, h2, h3, h4, c1, c2, c3, c4]
    simp only [allFindings, severityCount_append]
    refine ⟨?_, ?_, ?_, ?_⟩ <;> ring

/-- The score stored by `generateNetworkSummary`, in terms of the severity counts. -/
theorem generateNetworkSummary_score (devices : List Device) (dur : String) :
    (generateNetworkSummary devices dur).NetworkRiskScore
      = (let r : Int := (if severityCount "CRITICAL" (allFindings devices) > 0 then 40 else 0)
            + severityCount "HIGH" (allFindings devices) * 5
            + severityCount "MEDIUM" (allFindings devices) * 2
            + severityCount "LOW" (allFindings devices)
         if r > 100 then 100 else r) := by
  obtain ⟨h1, h2, h3, h4⟩ := deviceStep_fold_counts devices
    { summary :=
        { TotalDevices := devices.length, TotalOpenPorts := 0, TotalVulns := 0,
          CriticalVulns := 0, HighVulns := 0, MediumVulns := 0, LowVulns := 0,
          VulnsByType := [], MostVulnerable := "", ScanDuration := dur,
          NetworkRiskScore := 0 },
      maxVulns := 0, mostVulnIP := "" }
  simp only [generateNetworkSummary, networkRiskScore, h1, h2, h3, h4]
  simp

theorem severityCount_pos_iff_any (sev : String) (vs : List Vulnerability) :
    severityCount sev vs > 0 ↔ vs.any (fun v => v.Severity = sev) = true := by
  induction vs with
  | nil => simp [severityCount_nil]
  | cons v vs ih =>
    rw [severityCount_cons, List.any_cons]
    have hn := severityCount_nonneg sev vs
    by_cases h : v.Severity = sev
    · simp [h]; omega
    · simp [h]
      simpa using ih

/-- C1: for every list of devices, `generateNetworkSummary` stores as `NetworkRiskScore`
the value `min(100, (40 if some finding is CRITICAL else 0) + 5*H + 2*M + 1*L)` over the
findings of all devices; for one device with one CRITICAL and two HIGH findings it is 50. -/
theorem generateNetworkSummary_score_eq_spec :
    (∀ (devices : List Device) (dur : String),
      (generateNetworkSummary devices dur).NetworkRiskScore = specNetworkScore devices) ∧
    (∀ (ip dur : String),
      (generateNetworkSummary
        [deviceWith ip [finding "CRITICAL", finding "HIGH", finding "HIGH"]] dur).NetworkRiskScore
        = 50) := by
  have key : ∀ (devices : List Device) (dur : String),
      (generateNetworkSummary devices dur).NetworkRiskScore = specNetworkScore devices := by
    intro devices dur
    rw [generateNetworkSummary_score]
    unfold specNetworkScore
    have hc := severityCount_pos_iff_any "CRITICAL" (allFindings devices)
    rw [min_def]
    by_cases h : severityCount "CRITICAL" (allFindings devices) > 0
    · have h' := hc.mp h
      simp only [h, h', if_true]
      split_ifs <;> omega
    · have h' : (allFindings devices).any (fun v => v.Severity = "CRITICAL") = false := by
        by_contra hne
        exact h (hc.mpr (by simpa using hne))
      simp only [h, h', if_false, Bool.false_eq_true]
      split_ifs <;> omega
  refine ⟨key, ?_⟩
  intro ip dur
  rw [key]
  simp [specNetworkScore, allFindings, deviceWith, finding, severityCount, List.filter_cons]

/-- C2: for every list of devices, whatever the severity strings of the findings, the
`NetworkRiskScore` of `generateNetworkSummary` lies between 0 and 100. -/
theorem generateNetworkSummary_score_bounds (devices : List Device) (dur : String) :
    0 ≤ (generateNetworkSummary devices dur).NetworkRiskScore ∧
    (generateNetworkSummary devices dur).NetworkRiskScore ≤ 100 := by
  rw [generateNetworkSummary_score]
  have h1 := severityCount_nonneg "HIGH" (allFindings devices)
  have h2 := severityCount_nonneg "MEDIUM" (allFindings devices)
  have h3 := severityCount_nonneg "LOW" (allFindings devices)
  simp only
  split_ifs <;> constructor <;> omega

theorem allFindings_append (xs ys : List Device) :
    allFindings (xs ++ ys) = allFindings xs ++ allFindings ys := by
  induction xs with
  | nil => rfl
  | cons x xs ih => simp [allFindings, ih]

theorem severityCount_insert (sev : String) (pre post : List Device) (d : Device)
    (vs1 vs2 : List Vulnerability) (v : Vulnerability) :
    severityCount sev (allFindings (pre ++ d.withFindings (vs1 ++ v :: vs2) :: post))
      = severityCount sev (allFindings (pre ++ d.withFindings (vs1 ++ vs2) :: post))
        + (if v.Severity = sev then 1 else 0) := by
  simp only [allFindings_append, allFindings, Device.withFindings, severityCount_append,
    severityCount_cons]
  ring

/-- C3: the network risk score is non-decreasing in each severity count: adding one more
finding (of severity CRITICAL, HIGH, MEDIUM or LOW, or indeed any other) to any device,
all other findings unchanged, never lowers the `NetworkRiskScore`. -/
theorem generateNetworkSummary_score_mono (pre post : List Device) (d : Device)
    (vs1 vs2 : List Vulnerability) (v : Vulnerability) (dur : String) :
    (generateNetworkSummary (pre ++ d.withFindings (vs1 ++ vs2) :: post) dur).NetworkRiskScore
      ≤ (generateNetworkSummary
          (pre ++ d.withFindings (vs1 ++ v :: vs2) :: post) dur).NetworkRiskScore := by
  rw [generateNetworkSummary_score, generateNetworkSummary_score]
  simp only [severityCount_insert]
  have h0 := severityCount_nonneg "CRITICAL"
    (allFindings (pre ++ d.withFindings (vs1 ++ vs2) :: post))
  have h1 := severityCount_nonneg "HIGH"
    (allFindings (pre ++ d.withFindings (vs1 ++ vs2) :: post))
  have h2 := severityCount_nonneg "MEDIUM"
    (allFindings (pre ++ d.withFindings (vs1 ++ vs2) :: post))
  have h3 := severityCount_nonneg "LOW"
    (allFindings (pre ++ d.withFindings (vs1 ++ vs2) :: post))
  split_ifs <;> omega

/-! ### Most vulnerable device -/

theorem deviceStep_most (st : SummaryLoop) (d : Device) :
    ((d.Vulnerabilities.length : Int) > st.maxVulns →
      (deviceStep st d).maxVulns = d.Vulnerabilities.length ∧
      (deviceStep st d).mostVulnIP = d.IP) ∧
    (¬ (d.Vulnerabilities.length : Int) > st.maxVulns →
      (deviceStep st d).maxVulns = st.maxVulns ∧
      (deviceStep st d).mostVulnIP = st.mostVulnIP) := by
  unfold deviceStep
  constructor
  · intro h
    simp [h]
  · intro h
    simp [h]

/-- State of the pair `maxVulns`, `mostVulnIP` after the outer loop: either no device
exceeded the initial maximum, or the pair describes the first device of maximal count. -/
theorem deviceStep_fold_most (ds : List Device) (st : SummaryLoop) :
    ((∀ x ∈ ds, (x.Vulnerabilities.length : Int) ≤ st.maxVulns) ∧
      (ds.foldl deviceStep st).maxVulns = st.maxVulns ∧
      (ds.foldl deviceStep st).mostVulnIP = st.mostVulnIP) ∨
    ∃ pre d post, ds = pre ++ d :: post ∧
      (d.Vulnerabilities.length : Int) > st.maxVulns ∧
      (∀ x ∈ pre, x.Vulnerabilities.length < d.Vulnerabilities.length) ∧
      (∀ x ∈ post, x.Vulnerabilities.length ≤ d.Vulnerabilities.length) ∧
      (ds.foldl deviceStep st).maxVulns = d.Vulnerabilities.length ∧
      (ds.foldl deviceStep st).mostVulnIP = d.IP := by
  induction ds generalizing st with
  | nil => left; simp
  | cons x xs ih =>
    rw [List.foldl_cons]
    obtain ⟨hgt, hle⟩ := deviceStep_most st x
    by_cases h : (x.Vulnerabilities.length : Int) > st.maxVulns
    · obtain ⟨hm, hi⟩ := hgt h
      rcases ih (deviceStep st x) with ⟨h1, h2, h3⟩ | ⟨pre, d, post, h1, h2, h3, h4, h5, h6⟩
      · right
        refine ⟨[], x, xs, rfl, h, by simp, ?_, by rw [h2, hm], by rw [h3, hi]⟩
        intro y hy
        have := h1 y hy
        rw [hm] at this
        exact_mod_cast this
      · right
        rw [hm] at h2
        refine ⟨x :: pre, d, post, by simp [h1], by omega, ?_, h4, h5, h6⟩
        intro y hy
        rcases List.mem_cons.mp hy with rfl | hy
        · exact_mod_cast h2
        · exact h3 y hy
    · obtain ⟨hm, hi⟩ := hle h
      rcases ih (deviceStep st x) with ⟨h1, h2, h3⟩ | ⟨pre, d, post, h1, h2, h3, h4, h5, h6⟩
      · left
        refine ⟨?_, by rw [h2, hm], by rw [h3, hi]⟩
        intro y hy
        rcases List.mem_cons.mp hy with rfl | hy
        · omega
        · have := h1 y hy
          rw [hm] at this
          exact this
      · right
        rw [hm] at h2
        refine ⟨x :: pre, d, post, by simp [h1], h2, ?_, h4, h5, h6⟩
        intro y hy
        rcases List.mem_cons.mp hy with rfl | hy
        · have : (y.Vulnerabilities.length : Int) < (d.Vulnerabilities.length : Int) := by omega
          exact_mod_cast this
        · exact h3 y hy

theorem generateNetworkSummary_most (devices : List Device) (dur : String) :
    ∃ st : SummaryLoop, st.maxVulns = 0 ∧ st.mostVulnIP = "" ∧
      (generateNetworkSummary devices dur).MostVulnerable
        = (devices.foldl deviceStep st).mostVulnIP :=
  ⟨_, rfl, rfl, rfl⟩

/-- C11 (as amended): for every list of devices in which some device has a finding,
`generateNetworkSummary` sets `MostVulnerable` to the IP of the first device in list order
whose number of findings is the maximum over all devices; when no device has a finding,
`MostVulnerable` is the empty string. -/
theorem generateNetworkSummary_mostVulnerable (devices : List Device) (dur : String) :
    ((∃ x ∈ devices, x.Vulnerabilities ≠ []) →
      ∃ pre d post, devices = pre ++ d :: post ∧
        (∀ x ∈ devices, x.Vulnerabilities.length ≤ d.Vulnerabilities.length) ∧
        (∀ x ∈ pre, x.Vulnerabilities.length < d.Vulnerabilities.length) ∧
        (generateNetworkSummary devices dur).MostVulnerable = d.IP) ∧
    ((∀ x ∈ devices, x.Vulnerabilities = []) →
      (generateNetworkSummary devices dur).MostVulnerable = "") := by
  obtain ⟨st, hm, hi, hmost⟩ := generateNetworkSummary_most devices dur
  rw [hmost]
  rcases deviceStep_fold_most devices st with ⟨h1, _, h3⟩ | ⟨pre, d, post, h1, h2, h3, h4, _, h6⟩
  · constructor
    · rintro ⟨x, hx, hne⟩
      have := h1 x hx
      rw [hm] at this
      have hlen : x.Vulnerabilities.length = 0 := by omega
      exact absurd (List.length_eq_zero.mp hlen) hne
    · intro _
      rw [h3, hi]
  · constructor
    · intro _
      refine ⟨pre, d, post, h1, ?_, h3, h6⟩
      intro x hx
      rw [h1] at hx
      rcases List.mem_append.mp hx with hx | hx
      · exact le_of_lt (h3 x hx)
      · rcases List.mem_cons.mp hx with rfl | hx
        · exact le_refl _
        · exact h4 x hx
    · intro hall
      rw [hm] at h2
      have hd : d ∈ devices := by rw [h1]; simp
      have := hall d hd
      rw [this] at h2
      simp at h2

theorem generateNetworkSummary_mostVulnerable_witness :
    (∃ x ∈ [deviceWith "192.0.2.1" [], deviceWith "192.0.2.2" [finding "LOW"],
        deviceWith "192.0.2.3" [finding "HIGH"]], x.Vulnerabilities ≠ []) ∧
    (∃ pre d post,
      [deviceWith "192.0.2.1" [], deviceWith "192.0.2.2" [finding "LOW"],
        deviceWith "192.0.2.3" [finding "HIGH"]] = pre ++ d :: post ∧
      (generateNetworkSummary [deviceWith "192.0.2.1" [], deviceWith "192.0.2.2" [finding "LOW"],
        deviceWith "192.0.2.3" [finding "HIGH"]] "1s").MostVulnerable = d.IP) ∧
    (generateNetworkSummary [deviceWith "192.0.2.1" [], deviceWith "192.0.2.2" [finding "LOW"],
      deviceWith "192.0.2.3" [finding "HIGH"]] "1s").MostVulnerable = "192.0.2.2" := by
  have h : ∃ x ∈ [deviceWith "192.0.2.1" [], deviceWith "192.0.2.2" [finding "LOW"],
      deviceWith "192.0.2.3" [finding "HIGH"]], x.Vulnerabilities ≠ [] :=
    ⟨deviceWith "192.0.2.2" [finding "LOW"], by simp, by simp [deviceWith]⟩
  refine ⟨h, ?_, by decide⟩
  obtain ⟨pre, d, post, h1, _, _, h4⟩ :=
    (generateNetworkSummary_mostVulnerable _ "1s").1 h
  exact ⟨pre, d, post, h1, h4⟩

/-- C11 (counterexample): for the one-element list whose device has no finding, that device
is the first whose number of findings equals the maximum, yet `MostVulnerable` is the empty
string and not its IP. -/
theorem generateNetworkSummary_mostVulnerable_no_findings :
    (generateNetworkSummary [deviceWith "192.0.2.1" []] "1s").MostVulnerable = "" ∧
    (deviceWith "192.0.2.1" []).IP = "192.0.2.1" ∧
    (generateNetworkSummary [deviceWith "192.0.2.1" []] "1s").MostVulnerable
      ≠ (deviceWith "192.0.2.1" []).IP := by
  refine ⟨by decide, rfl, by decide⟩

/-! ### Address arithmetic -/

theorem getD_append_cons_length (pre suf : Bytes) (b : Nat) :
    (pre ++ b :: suf).getD pre.length 0 = b := by
  induction pre with
  | nil => rfl
  | cons a pre ih => simpa using ih

theorem set_append_cons_length (pre suf : Bytes) (b x : Nat) :
    (pre ++ b :: suf).set pre.length x = pre ++ x :: suf := by
  induction pre with
  | nil => rfl
  | cons a pre ih => simp [ih]

theorem incrementLoop_append (pre suf : Bytes) :
    incrementLoop (pre ++ suf) pre.length = incrementLoop pre pre.length ++ suf := by
  induction pre using List.reverseRecOn generalizing suf with
  | nil => rfl
  | append_singleton pre b ih =>
    have e1 : (pre ++ [b] ++ suf) = pre ++ b :: suf := by simp
    have e2 : (pre ++ [b]).length = pre.length + 1 := by simp
    rw [e2, e1]
    have l1 : incrementLoop (pre ++ b :: suf) (pre.length + 1)
        = if (b + 1) % 256 > 0 then pre ++ ((b + 1) % 256) :: suf
          else incrementLoop (pre ++ ((b + 1) % 256) :: suf) pre.length := by
      rw [incrementLoop]
      simp only [getD_append_cons_length, set_append_cons_length]
    have l2 : incrementLoop (pre ++ [b]) (pre.length + 1)
        = if (b + 1) % 256 > 0 then pre ++ [(b + 1) % 256]
          else incrementLoop (pre ++ [(b + 1) % 256]) pre.length := by
      rw [incrementLoop]
      simp only [getD_append_cons_length, set_append_cons_length]
    rw [l1, l2]
    split_ifs with h
    · simp
    · rw [ih, ih]; simp

/-- Recursion equation of `IncrementIP` on the last byte. -/
theorem IncrementIP_concat (pre : Bytes) (b : Nat) :
    IncrementIP (pre ++ [b])
      = if (b + 1) % 256 > 0 then pre ++ [(b + 1) % 256] else IncrementIP pre ++ [0] := by
  unfold IncrementIP
  have e2 : (pre ++ [b]).length = pre.length + 1 := by simp
  rw [e2, incrementLoop]
  simp only [getD_append_cons_length, set_append_cons_length]
  split_ifs with h
  · rfl
  · have h0 : (b + 1) % 256 = 0 := by omega
    rw [h0, incrementLoop_append]

theorem IncrementIP_nil : IncrementIP [] = [] := rfl

theorem IncrementIP_length (ip : Bytes) : (IncrementIP ip).length = ip.length := by
  induction ip using List.reverseRecOn with
  | nil => rfl
  | append_singleton pre b ih =>
    rw [IncrementIP_concat]
    split_ifs <;> simp [ih]

theorem IncrementIP_isBytes (ip : Bytes) (h : IsBytes ip) : IsBytes (IncrementIP ip) := by
  induction ip using List.reverseRecOn with
  | nil => exact h
  | append_singleton pre b ih =>
    have hpre : IsBytes pre := fun x hx => h x (by simp [hx])
    rw [IncrementIP_concat]
    split_ifs
    · intro x hx
      rcases List.mem_append.mp hx with hx | hx
      · exact hpre x hx
      · have : x = (b + 1) % 256 := by simpa using hx
        omega
    · intro x hx
      rcases List.mem_append.mp hx with hx | hx
      · exact ih hpre x hx
      · have : x = 0 := by simpa using hx
        omega

theorem beValue_concat (pre : Bytes) (b : Nat) :
    beValue (pre ++ [b]) = beValue pre * 256 + b := by
  simp [beValue, List.foldl_append]

theorem beValue_lt (ip : Bytes) (h : IsBytes ip) : beValue ip < 256 ^ ip.length := by
  induction ip using List.reverseRecOn with
  | nil => simp [beValue]
  | append_singleton pre b ih =>
    have hpre : IsBytes pre := fun x hx => h x (by simp [hx])
    have hb : b < 256 := h b (by simp)
    have := ih hpre
    rw [beValue_concat, List.length_append, List.length_singleton, pow_succ]
    omega

theorem beValue_IncrementIP (ip : Bytes) (h : IsBytes ip) :
    beValue (IncrementIP ip) = (beValue ip + 1) % 256 ^ ip.length := by
  induction ip using List.reverseRecOn with
  | nil => simp [IncrementIP_nil, beValue]
  | append_singleton pre b ih =>
    have hpre : IsBytes pre := fun x hx => h x (by simp [hx])
    have hb : b < 256 := h b (by simp)
    have hlt := beValue_lt pre hpre
    rw [IncrementIP_concat, List.length_append, List.length_singleton, pow_succ]
    split_ifs with hc
    · have hb1 : (b + 1) % 256 = b + 1 := by omega
      rw [hb1, beValue_concat, beValue_concat, Nat.mod_eq_of_lt]
      · ring
      · omega
    · have hb255 : b = 255 := by omega
      subst hb255
      rw [beValue_concat, beValue_concat, ih hpre]
      have e : beValue pre * 256 + 255 + 1 = (beValue pre + 1) * 256 := by ring
      rw [e, Nat.mul_mod_mul_right]
      ring

theorem beEncode_length (n v : Nat) : (beEncode n v).length = n := by
  induction n generalizing v with
  | zero => rfl
  | succ n ih => simp [beEncode, ih]

theorem beEncode_beValue (ip : Bytes) (h : IsBytes ip) : beEncode ip.length (beValue ip) = ip := by
  induction ip using List.reverseRecOn with
  | nil => rfl
  | append_singleton pre b ih =>
    have hpre : IsBytes pre := fun x hx => h x (by simp [hx])
    have hb : b < 256 := h b (by simp)
    rw [List.length_append, List.length_singleton, beEncode, beValue_concat]
    have e1 : (beValue pre * 256 + b) / 256 = beValue pre := by omega
    have e2 : (beValue pre * 256 + b) % 256 = b := by omega
    rw [e1, e2, ih hpre]

theorem beValue_beEncode (n v : Nat) : beValue (beEncode n v) = v % 256 ^ n := by
  induction n generalizing v with
  | zero => simp [beEncode, beValue, Nat.mod_one]
  | succ n ih =>
    rw [beEncode, beValue_concat, ih, pow_succ, Nat.mul_comm (256 ^ n) 256, Nat.mod_mul]
    ring

theorem IncrementIP_eq_beEncode (ip : Bytes) (h : IsBytes ip) :
    IncrementIP ip = beEncode ip.length ((beValue ip + 1) % 256 ^ ip.length) := by
  have h1 := beEncode_beValue (IncrementIP ip) (IncrementIP_isBytes ip h)
  rw [IncrementIP_length, beValue_IncrementIP ip h] at h1
  exact h1.symm

/-- Bytes above a position that did not wrap are left alone. -/
theorem IncrementIP_getD_of_lt (ip : Bytes) (i j : Nat) (hij : i < j) (hj : j < ip.length)
    (hne : ip.getD j 0 ≠ 255) (h : IsBytes ip) : (IncrementIP ip).getD i 0 = ip.getD i 0 := by
  induction ip using List.reverseRecOn with
  | nil => simp at hj
  | append_singleton pre b ih =>
    have hpre : IsBytes pre := fun x hx => h x (by simp [hx])
    have hb : b < 256 := h b (by simp)
    have hlen : (pre ++ [b]).length = pre.length + 1 := by simp
    rw [hlen] at hj
    have hi : i < pre.length := by omega
    rw [IncrementIP_concat]
    split_ifs with hc
    · rw [List.getD_append _ _ _ _ hi, List.getD_append _ _ _ _ hi]
    · have hb255 : b = 255 := by omega
      subst hb255
      have hjlt : j < pre.length := by
        rcases Nat.lt_or_ge j pre.length with hlt | hge
        · exact hlt
        · have hje : j = pre.length := by omega
          subst hje
          exact absurd (getD_append_cons_length pre [] 255) hne
      have hne' : pre.getD j 0 ≠ 255 := by
        rw [List.getD_append _ _ _ _ hjlt] at hne
        exact hne
      have hi' : i < (IncrementIP pre).length := by rw [IncrementIP_length]; exact hi
      rw [List.getD_append _ _ _ _ hi', List.getD_append _ _ _ _ hi]
      exact ih hjlt hne' hpre

/-- C5: for every byte sequence `ip` (of length 4 or 16, and indeed of any length),
`IncrementIP` keeps the length and replaces `ip` by the big-endian encoding of
`(v + 1) mod 2^(8n)`, `v` being the big-endian value before the call; no byte above a
position that stops the carry changes; `10.0.0.255` becomes `10.0.1.0` and
`10.0.255.255` becomes `10.1.0.0`. -/
theorem IncrementIP_spec (ip : Bytes) (hb : IsBytes ip) :
    (IncrementIP ip).length = ip.length ∧
    IncrementIP ip = beEncode ip.length ((beValue ip + 1) % 2 ^ (8 * ip.length)) ∧
    (∀ i j, i < j → j < ip.length → ip.getD j 0 ≠ 255 →
      (IncrementIP ip).getD i 0 = ip.getD i 0) ∧
    IncrementIP [10, 0, 0, 255] = [10, 0, 1, 0] ∧
    IncrementIP [10, 0, 255, 255] = [10, 1, 0, 0] := by
  refine ⟨IncrementIP_length ip, ?_, ?_, by decide, by decide⟩
  · have e : (2 : Nat) ^ (8 * ip.length) = 256 ^ ip.length := by
      rw [pow_mul]; norm_num
    rw [e]
    exact IncrementIP_eq_beEncode ip hb
  · intro i j hij hj hne
    exact IncrementIP_getD_of_lt ip i j hij hj hne hb

theorem IncrementIP_spec_witness :
    IsBytes [192, 168, 255, 255] ∧
    IncrementIP [192, 168, 255, 255]
      = beEncode 4 ((beValue [192, 168, 255, 255] + 1) % 2 ^ (8 * 4)) :=
  ⟨by decide, (IncrementIP_spec [192, 168, 255, 255] (by decide)).2.1⟩

/-! ### Enumeration of a range -/

theorem contains_slash0 (ip : Bytes) (h : ip.length = 4) :
    IPNet.Contains { IP := [0, 0, 0, 0], Mask := [0, 0, 0, 0] } ip = true := by
  have hn : networkNumberAndMask { IP := [0, 0, 0, 0], Mask := [0, 0, 0, 0] }
      = ([0, 0, 0, 0], [0, 0, 0, 0]) := by decide
  have ht : To4 ip = some ip := by simp [To4, h]
  unfold IPNet.Contains
  rw [hn]
  simp only [ht, h]
  simp [List.range_succ]

theorem discoverLoop_slash0 (fuel : Nat) (ip : Bytes) (h : ip.length = 4) :
    discoverLoop { IP := [0, 0, 0, 0], Mask := [0, 0, 0, 0] } fuel ip = none := by
  induction fuel generalizing ip with
  | zero => rfl
  | succ fuel ih =>
    rw [discoverLoop, contains_slash0 ip h, if_pos rfl,
      ih (IncrementIP ip) (by rw [IncrementIP_length, h])]
    rfl

theorem beEncode_isBytes (n v : Nat) : IsBytes (beEncode n v) := by
  induction n generalizing v with
  | zero => intro b hb; simp [beEncode] at hb
  | succ n ih =>
    intro b hb
    rw [beEncode] at hb
    rcases List.mem_append.mp hb with h | h
    · exact ih _ b h
    · have : b = v % 256 := by simpa using h
      omega

theorem beEncode_mod (n v : Nat) : beEncode n (v % 256 ^ n) = beEncode n v := by
  have h := beEncode_beValue (beEncode n v) (beEncode_isBytes n v)
  rw [beEncode_length, beValue_beEncode] at h
  exact h

/-- Address reached from `ip` after `n` calls of `IncrementIP`. -/
theorem iterate_IncrementIP (ip : Bytes) (hb : IsBytes ip) (n : Nat) :
    IncrementIP^[n] ip = beEncode ip.length ((beValue ip + n) % 256 ^ ip.length) := by
  induction n with
  | zero =>
    rw [Function.iterate_zero, id, Nat.add_zero, beEncode_mod, beEncode_beValue ip hb]
  | succ n ih =>
    rw [Function.iterate_succ_apply', ih, IncrementIP_eq_beEncode _ (beEncode_isBytes _ _),
      beEncode_length, beValue_beEncode, Nat.mod_mod, Nat.mod_add_mod, Nat.add_assoc]

/-- C4: on the range `0.0.0.0/0` the enumeration loop of `DiscoverDevices` never exits:
whatever the number of iterations allowed, it is still running, because `IncrementIP`
wraps `255.255.255.255` to `0.0.0.0`, which the range contains; after `2^32` increments
the loop is back at its first address `0.0.0.0`, which it probes again. -/
theorem discoverAddresses_slash0_never_exits :
    (∀ fuel : Nat, discoverAddresses [0, 0, 0, 0] 0 fuel = none) ∧
    IncrementIP [255, 255, 255, 255] = [0, 0, 0, 0] ∧
    IPNet.Contains { IP := [0, 0, 0, 0], Mask := [0, 0, 0, 0] } [0, 0, 0, 0] = true ∧
    IncrementIP^[2 ^ 32] [0, 0, 0, 0] = [0, 0, 0, 0] := by
  have hp : ParseCIDR [0, 0, 0, 0] 0
      = some (v4InV6Prefix ++ [0, 0, 0, 0], { IP := [0, 0, 0, 0], Mask := [0, 0, 0, 0] }) := by
    decide
  refine ⟨?_, by decide, by decide, ?_⟩
  · intro fuel
    unfold discoverAddresses
    rw [hp]
    exact discoverLoop_slash0 fuel _ (by decide)
  · rw [iterate_IncrementIP _ (by decide)]
    decide

theorem length_four (l : Bytes) (h : l.length = 4) : ∃ a b c d, l = [a, b, c, d] := by
  match l, h with
  | [a, b, c, d], _ => exact ⟨a, b, c, d, rfl⟩

/-- Mask byte with `n` leading ones, as computed by `net.CIDRMask`. -/
theorem land_maskByte (n x : Nat) (hx : x < 256) :
    x &&& (if n ≥ 8 then 0xff else 255 - (0xff >>> n)) = x / 2 ^ (8 - n) * 2 ^ (8 - n) := by
  have key : ∀ n, n ≤ 8 → ∀ x, x < 256 →
      x &&& (255 - 255 >>> n) = x / 2 ^ (8 - n) * 2 ^ (8 - n) := by
    set_option maxRecDepth 100000 in decide
  by_cases h : n ≥ 8
  · have e : 8 - n = 0 := by omega
    rw [if_pos h, e]
    simpa using key 8 (le_refl _) x hx
  · rw [if_neg h]
    exact key n (by omega) x hx

theorem CIDRMask_32 (p : Nat) (hp : p ≤ 32) :
    CIDRMask (p : Int) 32
      = [if p ≥ 8 then 0xff else 255 - (0xff >>> p),
         if p - 8 ≥ 8 then 0xff else 255 - (0xff >>> (p - 8)),
         if p - 16 ≥ 8 then 0xff else 255 - (0xff >>> (p - 16)),
         if p - 24 ≥ 8 then 0xff else 255 - (0xff >>> (p - 24))] := by
  unfold CIDRMask
  have h1 : ¬ ((32 : Int) ≠ 8 * 4 ∧ (32 : Int) ≠ 8 * 16) := by decide
  have h2 : ¬ ((p : Int) < 0 ∨ (p : Int) > 32) := by omega
  rw [if_neg h1, if_neg h2]
  have e : ((32 : Int) / 8).toNat = 4 := by decide
  simp only [e, Int.toNat_ofNat]
  rfl

theorem Mask_v4 (a0 a1 a2 a3 m0 m1 m2 m3 : Nat) :
    Mask (v4InV6Prefix ++ [a0, a1, a2, a3]) [m0, m1, m2, m3]
      = [a0 &&& m0, a1 &&& m1, a2 &&& m2, a3 &&& m3] := by
  rfl

theorem Contains_v4 (n0 n1 n2 n3 m0 m1 m2 m3 x0 x1 x2 x3 : Nat) :
    IPNet.Contains { IP := [n0, n1, n2, n3], Mask := [m0, m1, m2, m3] } [x0, x1, x2, x3] = true
      ↔ (n0 &&& m0 = x0 &&& m0 ∧ n1 &&& m1 = x1 &&& m1 ∧ n2 &&& m2 = x2 &&& m2 ∧
          n3 &&& m3 = x3 &&& m3) := by
  have hn : networkNumberAndMask { IP := [n0, n1, n2, n3], Mask := [m0, m1, m2, m3] }
      = ([n0, n1, n2, n3], [m0, m1, m2, m3]) := rfl
  have ht : To4 [x0, x1, x2, x3] = some [x0, x1, x2, x3] := rfl
  unfold IPNet.Contains
  rw [hn]
  simp only [ht]
  simp [List.range_succ, and_assoc]

theorem beValue_four (x0 x1 x2 x3 : Nat) :
    beValue [x0, x1, x2, x3] = x0 * 16777216 + x1 * 65536 + x2 * 256 + x3 := by
  simp [beValue]; ring

theorem isBytes_four (x0 x1 x2 x3 : Nat) :
    IsBytes [x0, x1, x2, x3] ↔ x0 < 256 ∧ x1 < 256 ∧ x2 < 256 ∧ x3 < 256 := by
  simp [IsBytes]

theorem base_arith (p : Nat) (hp : p ≤ 32) (a0 a1 a2 a3 : Nat)
    (ha1 : a1 < 256) (ha2 : a2 < 256) (ha3 : a3 < 256) :
    (a0 / 2 ^ (8 - p) * 2 ^ (8 - p)) * 16777216
      + (a1 / 2 ^ (8 - (p - 8)) * 2 ^ (8 - (p - 8))) * 65536
      + (a2 / 2 ^ (8 - (p - 16)) * 2 ^ (8 - (p - 16))) * 256
      + (a3 / 2 ^ (8 - (p - 24)) * 2 ^ (8 - (p - 24)))
    = (a0 * 16777216 + a1 * 65536 + a2 * 256 + a3) / 2 ^ (32 - p) * 2 ^ (32 - p) := by
  interval_cases p <;>
    simp only [Nat.reduceSub, Nat.reducePow, Nat.zero_sub, Nat.sub_zero] <;> omega

theorem div_mul_lt (a k : Nat) (ha : a < 256) : a / 2 ^ k * 2 ^ k < 256 :=
  lt_of_le_of_lt (Nat.div_mul_le_self a (2 ^ k)) ha

theorem div_mul_div_mul (a k : Nat) : (a / 2 ^ k * 2 ^ k) / 2 ^ k * 2 ^ k = a / 2 ^ k * 2 ^ k := by
  rw [Nat.mul_div_cancel _ (Nat.pos_pow_of_pos k (by norm_num))]

/-- Membership in an IPv4 range, as decided by `net.IPNet.Contains` on the network that
`net.ParseCIDR` builds, is equality of the leading `p` bits. -/
theorem Contains_iff_div (p : Nat) (hp : p ≤ 32) (a0 a1 a2 a3 x0 x1 x2 x3 : Nat)
    (ha : IsBytes [a0, a1, a2, a3]) (hx : IsBytes [x0, x1, x2, x3]) :
    IPNet.Contains
        { IP := Mask (v4InV6Prefix ++ [a0, a1, a2, a3]) (CIDRMask (p : Int) 32),
          Mask := CIDRMask (p : Int) 32 } [x0, x1, x2, x3] = true
      ↔ beValue [x0, x1, x2, x3] / 2 ^ (32 - p) = beValue [a0, a1, a2, a3] / 2 ^ (32 - p) := by
  obtain ⟨ha0, ha1, ha2, ha3⟩ := (isBytes_four _ _ _ _).mp ha
  obtain ⟨hx0, hx1, hx2, hx3⟩ := (isBytes_four _ _ _ _).mp hx
  rw [CIDRMask_32 p hp, Mask_v4, Contains_v4]
  rw [land_maskByte p a0 ha0, land_maskByte (p - 8) a1 ha1, land_maskByte (p - 16) a2 ha2,
    land_maskByte (p - 24) a3 ha3]
  rw [land_maskByte p _ (div_mul_lt a0 _ ha0), land_maskByte (p - 8) _ (div_mul_lt a1 _ ha1),
    land_maskByte (p - 16) _ (div_mul_lt a2 _ ha2),
    land_maskByte (p - 24) _ (div_mul_lt a3 _ ha3)]
  rw [land_maskByte p x0 hx0, land_maskByte (p - 8) x1 hx1, land_maskByte (p - 16) x2 hx2,
    land_maskByte (p - 24) x3 hx3]
  simp only [div_mul_div_mul]
  rw [beValue_four, beValue_four]
  have hA := base_arith p hp a0 a1 a2 a3 ha1 ha2 ha3
  have hX := base_arith p hp x0 x1 x2 x3 hx1 hx2 hx3
  have hS : 0 < 2 ^ (32 - p) := Nat.pos_pow_of_pos _ (by norm_num)
  have b0 := div_mul_lt a0 (8 - p) ha0
  have b1 := div_mul_lt a1 (8 - (p - 8)) ha1
  have b2 := div_mul_lt a2 (8 - (p - 16)) ha2
  have b3 := div_mul_lt a3 (8 - (p - 24)) ha3
  have c0 := div_mul_lt x0 (8 - p) hx0
  have c1 := div_mul_lt x1 (8 - (p - 8)) hx1
  have c2 := div_mul_lt x2 (8 - (p - 16)) hx2
  have c3 := div_mul_lt x3 (8 - (p - 24)) hx3
  constructor
  · rintro ⟨e0, e1, e2, e3⟩
    rw [e0, e1, e2, e3] at hA
    have : (x0 * 16777216 + x1 * 65536 + x2 * 256 + x3) / 2 ^ (32 - p) * 2 ^ (32 - p)
        = (a0 * 16777216 + a1 * 65536 + a2 * 256 + a3) / 2 ^ (32 - p) * 2 ^ (32 - p) := by
      rw [← hA, ← hX]
    exact Nat.eq_of_mul_eq_mul_right hS this
  · intro h
    rw [h] at hX
    have e := hA.trans hX.symm
    generalize a0 / 2 ^ (8 - p) * 2 ^ (8 - p) = A0 at *
    generalize a1 / 2 ^ (8 - (p - 8)) * 2 ^ (8 - (p - 8)) = A1 at *
    generalize a2 / 2 ^ (8 - (p - 16)) * 2 ^ (8 - (p - 16)) = A2 at *
    generalize a3 / 2 ^ (8 - (p - 24)) * 2 ^ (8 - (p - 24)) = A3 at *
    generalize x0 / 2 ^ (8 - p) * 2 ^ (8 - p) = X0 at *
    generalize x1 / 2 ^ (8 - (p - 8)) * 2 ^ (8 - (p - 8)) = X1 at *
    generalize x2 / 2 ^ (8 - (p - 16)) * 2 ^ (8 - (p - 16)) = X2 at *
    generalize x3 / 2 ^ (8 - (p - 24)) * 2 ^ (8 - (p - 24)) = X3 at *
    omega

/-- The loop started inside a block of `S` consecutive addresses that `Contains` accepts
runs to the end of the block and stops there. -/
theorem discoverLoop_range (ipnet : IPNet) (S q : Nat) (hfit : q * S + S ≤ 256 ^ 4)
    (hC : ∀ ip : Bytes, ip.length = 4 → IsBytes ip →
      (ipnet.Contains ip = true ↔ beValue ip / S = q))
    (hend : (q * S + S) % 256 ^ 4 / S ≠ q) :
    ∀ r, r ≤ S → ∀ fuel, r < fuel →
      discoverLoop ipnet fuel (beEncode 4 (q * S + (S - r)))
        = some ((List.range r).map (fun i => beEncode 4 (q * S + (S - r) + i))) := by
  intro r
  induction r with
  | zero =>
    intro _ fuel hfuel
    obtain ⟨f, rfl⟩ : ∃ f, fuel = f + 1 := ⟨fuel - 1, by omega⟩
    have hnot : ¬ ipnet.Contains (beEncode 4 (q * S + (S - 0))) = true := by
      rw [hC _ (beEncode_length 4 _) (beEncode_isBytes 4 _), beValue_beEncode]
      simpa using hend
    rw [discoverLoop, if_neg hnot]
    rfl
  | succ r ih =>
    intro hr fuel hfuel
    obtain ⟨f, rfl⟩ : ∃ f, fuel = f + 1 := ⟨fuel - 1, by omega⟩
    have hv : q * S + (S - (r + 1)) < 256 ^ 4 := by omega
    have hin : ipnet.Contains (beEncode 4 (q * S + (S - (r + 1)))) = true := by
      rw [hC _ (beEncode_length 4 _) (beEncode_isBytes 4 _), beValue_beEncode,
        Nat.mod_eq_of_lt hv]
      apply Nat.div_eq_of_lt_le
      · omega
      · rw [Nat.succ_mul]; omega
    have hinc : IncrementIP (beEncode 4 (q * S + (S - (r + 1))))
        = beEncode 4 (q * S + (S - r)) := by
      rw [IncrementIP_eq_beEncode _ (beEncode_isBytes 4 _), beEncode_length, beValue_beEncode,
        Nat.mod_eq_of_lt hv, beEncode_mod]
      congr 1
      omega
    rw [discoverLoop, if_pos hin, hinc, ih (by omega) f (by omega)]
    rw [List.range_succ_eq_map, List.map_cons, List.map_map, Option.map_some']
    congr 2
    apply List.map_congr_left
    intro i _
    simp only [Function.comp]
    congr 1
    omega

/-- For every IPv4 range with prefix length `p`, `1 ≤ p ≤ 32`, the enumeration loop of
`DiscoverDevices` exits after `2^(32-p)` iterations, having handed to the probes the
addresses `base, base + 1, ..., base + 2^(32-p) - 1` in this order, each once, `base`
being the address with the host bits cleared. -/
theorem discoverAddresses_ipv4 (addr : Bytes) (p fuel : Nat) (hlen : addr.length = 4)
    (hb : IsBytes addr) (hp1 : 1 ≤ p) (hp2 : p ≤ 32) (hfuel : 2 ^ (32 - p) < fuel) :
    discoverAddresses addr (p : Int) fuel
      = some ((List.range (2 ^ (32 - p))).map
          (fun i => beEncode 4 (beValue addr / 2 ^ (32 - p) * 2 ^ (32 - p) + i))) := by
  obtain ⟨a0, a1, a2, a3, rfl⟩ := length_four addr hlen
  obtain ⟨ha0, ha1, ha2, ha3⟩ := (isBytes_four _ _ _ _).mp hb
  have hS : 0 < 2 ^ (32 - p) := Nat.pos_pow_of_pos _ (by norm_num)
  have hST : 2 ^ (32 - p) * 2 ^ p = 256 ^ 4 := by
    rw [← pow_add]
    have : 32 - p + p = 32 := by omega
    rw [this]; norm_num
  have hT : 2 ≤ 2 ^ p := by
    calc 2 = 2 ^ 1 := by norm_num
      _ ≤ 2 ^ p := Nat.pow_le_pow_right (by norm_num) hp1
  have hV : beValue [a0, a1, a2, a3] < 256 ^ 4 := beValue_lt _ hb
  have hq : beValue [a0, a1, a2, a3] / 2 ^ (32 - p) < 2 ^ p := by
    apply Nat.div_lt_of_lt_mul
    rw [hST]; exact hV
  have hparse : ParseCIDR [a0, a1, a2, a3] (p : Int)
      = some (v4InV6Prefix ++ [a0, a1, a2, a3],
          { IP := Mask (v4InV6Prefix ++ [a0, a1, a2, a3]) (CIDRMask (p : Int) 32),
            Mask := CIDRMask (p : Int) 32 }) := by
    unfold ParseCIDR
    have h1 : ¬ (([a0, a1, a2, a3] : Bytes).length ≠ 4 ∧ ([a0, a1, a2, a3] : Bytes).length ≠ 16) := by
      simp
    have h2 : ¬ ((p : Int) < 0 ∨ (p : Int) > 8 * (([a0, a1, a2, a3] : Bytes).length : Int)) := by
      simp only [List.length_cons, List.length_nil]
      push_cast
      omega
    rw [if_neg h1]
    simp only [h2, if_false]
    simp
  have hstart : Mask (v4InV6Prefix ++ [a0, a1, a2, a3]) (CIDRMask (p : Int) 32)
      = beEncode 4 (beValue [a0, a1, a2, a3] / 2 ^ (32 - p) * 2 ^ (32 - p)
          + (2 ^ (32 - p) - 2 ^ (32 - p))) := by
    rw [CIDRMask_32 p hp2, Mask_v4, land_maskByte p a0 ha0, land_maskByte (p - 8) a1 ha1,
      land_maskByte (p - 16) a2 ha2, land_maskByte (p - 24) a3 ha3]
    have hbytes : IsBytes [a0 / 2 ^ (8 - p) * 2 ^ (8 - p),
        a1 / 2 ^ (8 - (p - 8)) * 2 ^ (8 - (p - 8)),
        a2 / 2 ^ (8 - (p - 16)) * 2 ^ (8 - (p - 16)),
        a3 / 2 ^ (8 - (p - 24)) * 2 ^ (8 - (p - 24))] :=
      (isBytes_four _ _ _ _).mpr
        ⟨div_mul_lt a0 _ ha0, div_mul_lt a1 _ ha1, div_mul_lt a2 _ ha2, div_mul_lt a3 _ ha3⟩
    have h := beEncode_beValue _ hbytes
    rw [beValue_four, base_arith p hp2 a0 a1 a2 a3 ha1 ha2 ha3, ← beValue_four] at h
    rw [Nat.sub_self, Nat.add_zero]
    exact h.symm
  have hC : ∀ ip : Bytes, ip.length = 4 → IsBytes ip →
      (IPNet.Contains
          { IP := Mask (v4InV6Prefix ++ [a0, a1, a2, a3]) (CIDRMask (p : Int) 32),
            Mask := CIDRMask (p : Int) 32 } ip = true
        ↔ beValue ip / 2 ^ (32 - p) = beValue [a0, a1, a2, a3] / 2 ^ (32 - p)) := by
    intro ip hl hi
    obtain ⟨x0, x1, x2, x3, rfl⟩ := length_four ip hl
    exact Contains_iff_div p hp2 a0 a1 a2 a3 x0 x1 x2 x3 hb hi
  have hfit : beValue [a0, a1, a2, a3] / 2 ^ (32 - p) * 2 ^ (32 - p) + 2 ^ (32 - p)
      ≤ 256 ^ 4 := by
    rw [← hST, ← Nat.succ_mul, Nat.mul_comm (2 ^ (32 - p)) (2 ^ p)]
    exact Nat.mul_le_mul_right _ hq
  have hend : (beValue [a0, a1, a2, a3] / 2 ^ (32 - p) * 2 ^ (32 - p) + 2 ^ (32 - p))
      % 256 ^ 4 / 2 ^ (32 - p) ≠ beValue [a0, a1, a2, a3] / 2 ^ (32 - p) := by
    rcases Nat.lt_or_ge (beValue [a0, a1, a2, a3] / 2 ^ (32 - p) + 1) (2 ^ p) with hlt | hge
    · have hlt2 : beValue [a0, a1, a2, a3] / 2 ^ (32 - p) * 2 ^ (32 - p) + 2 ^ (32 - p)
          < 256 ^ 4 := by
        rw [← hST, ← Nat.succ_mul, Nat.mul_comm (2 ^ (32 - p)) (2 ^ p)]
        exact Nat.mul_lt_mul_of_pos_right hlt hS
      rw [Nat.mod_eq_of_lt hlt2, ← Nat.succ_mul, Nat.mul_div_cancel _ hS]
      omega
    · have heq : beValue [a0, a1, a2, a3] / 2 ^ (32 - p) + 1 = 2 ^ p := by omega
      have : beValue [a0, a1, a2, a3] / 2 ^ (32 - p) * 2 ^ (32 - p) + 2 ^ (32 - p)
          = 256 ^ 4 := by
        rw [← hST, ← Nat.succ_mul, Nat.succ_eq_add_one, heq, Nat.mul_comm]
      rw [this, Nat.mod_self, Nat.zero_div]
      omega
  unfold discoverAddresses
  rw [hparse]
  simp only
  have h := discoverLoop_range _ (2 ^ (32 - p)) (beValue [a0, a1, a2, a3] / 2 ^ (32 - p))
    hfit hC hend (2 ^ (32 - p)) (le_refl _) fuel hfuel
  rw [hstart] at h ⊢
  rw [h]
  simp

/-! ### Substring search -/

/-- Result of the search: either -1, or the first offset at which `sub` starts. -/
theorem indexFrom_spec (sub s : Bytes) (i : Nat) :
    (strings.indexFrom sub s i = -1 ∧ ¬ sub <:+: s) ∨
    ∃ k : Nat, strings.indexFrom sub s i = ((i + k : Nat) : Int) ∧ k ≤ s.length ∧
      sub <+: s.drop k ∧ ∀ k2, k2 < k → ¬ sub <+: s.drop k2 := by
  induction s generalizing i with
  | nil =>
    by_cases h : sub = []
    · right
      exact ⟨0, by simp [strings.indexFrom, h], le_refl _, by simp [h], by simp⟩
    · left
      exact ⟨by simp [strings.indexFrom, h], by simpa using h⟩
  | cons c t ih =>
    by_cases hp : sub.isPrefixOf (c :: t) = true
    · right
      refine ⟨0, by simp [strings.indexFrom, hp], Nat.zero_le _, ?_, by simp⟩
      simpa using List.isPrefixOf_iff_prefix.mp hp
    · have hnp : ¬ sub <+: c :: t := fun h => hp (List.isPrefixOf_iff_prefix.mpr h)
      have e : strings.indexFrom sub (c :: t) i = strings.indexFrom sub t (i + 1) := by
        simp [strings.indexFrom, hp]
      rcases ih (i + 1) with ⟨h1, h2⟩ | ⟨k, h1, h2, h3, h4⟩
      · left
        refine ⟨by rw [e, h1], ?_⟩
        intro hin
        rcases List.infix_cons_iff.mp hin with h | h
        · exact hnp h
        · exact h2 h
      · right
        refine ⟨k + 1, ?_, by simpa using h2, by simpa using h3, ?_⟩
        · rw [e, h1]; push_cast; ring
        · intro k2 hk2
          cases k2 with
          | zero => simpa using hnp
          | succ k2 => simpa using h4 k2 (by omega)

theorem Index_spec (s sub : Bytes) :
    (strings.Index s sub = -1 ∧ ¬ sub <:+: s) ∨
    ∃ k : Nat, strings.Index s sub = (k : Int) ∧ k ≤ s.length ∧
      sub <+: s.drop k ∧ ∀ k2, k2 < k → ¬ sub <+: s.drop k2 := by
  rcases indexFrom_spec sub s 0 with h | ⟨k, h1, h2, h3, h4⟩
  · exact Or.inl h
  · exact Or.inr ⟨k, by simpa [strings.Index] using h1, h2, h3, h4⟩

theorem occurs_of_prefix_drop (sub s : Bytes) (k : Nat) (h : sub <+: s.drop k) : sub <:+: s :=
  (h.isInfix).trans (List.drop_suffix k s).isInfix

theorem Contains_iff_occurs (s sub : Bytes) : strings.Contains s sub = true ↔ sub <:+: s := by
  unfold strings.Contains
  rcases Index_spec s sub with ⟨h1, h2⟩ | ⟨k, h1, _, h3, _⟩
  · rw [h1]
    simp [h2]
  · rw [h1]
    simp only [ge_iff_le, Int.natCast_nonneg, decide_True, true_iff]
    exact occurs_of_prefix_drop sub s k h3

theorem Contains_eq_false_iff (s sub : Bytes) :
    strings.Contains s sub = false ↔ ¬ sub <:+: s := by
  rw [← Contains_iff_occurs]; simp

theorem slice_eq (s : Bytes) (k n : Nat) (h : k + n ≤ s.length) :
    slice s (k : Int) ((k : Int) + (n : Int)) = some ((s.drop k).take n) := by
  unfold slice
  have hc : (0 : Int) ≤ (k : Int) ∧ (k : Int) ≤ (k : Int) + (n : Int) ∧
      (k : Int) + (n : Int) ≤ (s.length : Int) := by
    refine ⟨by omega, by omega, by omega⟩
  rw [if_pos hc]
  have e1 : ((k : Int)).toNat = k := by simp
  have e2 : ((k : Int) + (n : Int)).toNat = k + n := by omega
  rw [e1, e2]
  simp

/-! ### Fingerprint extraction -/

theorem ssh_occurs_in_openssh : ascii "ssh" <:+: ascii "openssh" :=
  ⟨ascii "open", [], by decide⟩

theorem extractVersion_of_ssh (lowerRunes : Bytes → Bytes) (banner : Bytes) (port : Int)
    (h : ascii "ssh" <:+: strings.ToLower lowerRunes banner) :
    extractVersion lowerRunes banner port
      = if strings.Index (strings.ToLower lowerRunes banner) (ascii "openssh") ≠ -1 ∧
            ((strings.ToLower lowerRunes banner).length : Int)
              > strings.Index (strings.ToLower lowerRunes banner) (ascii "openssh") + 20 then
          slice (strings.ToLower lowerRunes banner)
            (strings.Index (strings.ToLower lowerRunes banner) (ascii "openssh"))
            (strings.Index (strings.ToLower lowerRunes banner) (ascii "openssh") + 20)
        else some (ascii "SSH detected") := by
  have hc := (Contains_iff_occurs _ _).mpr h
  unfold extractVersion
  simp only [hc, if_true]

/-- C6 (as amended): when the lower-cased banner contains "openssh", with first occurrence at
offset `k`: if the banner is longer than `k + 20` bytes, `extractVersion` returns the 20
bytes of the lower-cased banner that start at `k` (which begin with "openssh"); if it is
shorter than `k + 20` bytes, `extractVersion` returns "SSH detected". -/
theorem extractVersion_openssh (lowerRunes : Bytes → Bytes) (banner : Bytes) (port : Int)
    (h : ascii "openssh" <:+: strings.ToLower lowerRunes banner) :
    ∃ k : Nat,
      strings.Index (strings.ToLower lowerRunes banner) (ascii "openssh") = (k : Int) ∧
      ascii "openssh" <+: (strings.ToLower lowerRunes banner).drop k ∧
      (∀ k2, k2 < k → ¬ ascii "openssh" <+: (strings.ToLower lowerRunes banner).drop k2) ∧
      ((strings.ToLower lowerRunes banner).length > k + 20 →
        extractVersion lowerRunes banner port
          = some (((strings.ToLower lowerRunes banner).drop k).take 20) ∧
        (((strings.ToLower lowerRunes banner).drop k).take 20).length = 20 ∧
        ascii "openssh" <+: ((strings.ToLower lowerRunes banner).drop k).take 20) ∧
      ((strings.ToLower lowerRunes banner).length < k + 20 →
        extractVersion lowerRunes banner port = some (ascii "SSH detected")) := by
  have hssh : ascii "ssh" <:+: strings.ToLower lowerRunes banner :=
    ssh_occurs_in_openssh.trans h
  rcases Index_spec (strings.ToLower lowerRunes banner) (ascii "openssh") with
    ⟨_, h2⟩ | ⟨k, h1, h2, h3, h4⟩
  · exact absurd h h2
  · refine ⟨k, h1, h3, h4, ?_, ?_⟩
    · intro hlen
      have hcond : (k : Int) ≠ -1 ∧
          ((strings.ToLower lowerRunes banner).length : Int) > (k : Int) + 20 := by
        constructor <;> omega
      rw [extractVersion_of_ssh lowerRunes banner port hssh, h1, if_pos hcond]
      have hs := slice_eq (strings.ToLower lowerRunes banner) k 20 (by omega)
      refine ⟨by simpa using hs, ?_, ?_⟩
      · rw [List.length_take, List.length_drop]; omega
      · obtain ⟨t, ht⟩ := h3
        rw [← ht]
        refine ⟨t.take 13, ?_⟩
        rw [List.take_append_eq_append_take]
        have e : (ascii "openssh").length = 7 := by decide
        simp [e]
    · intro hlen
      have hcond : ¬ ((k : Int) ≠ -1 ∧
          ((strings.ToLower lowerRunes banner).length : Int) > (k : Int) + 20) := by
        intro hc
        omega
      rw [extractVersion_of_ssh lowerRunes banner port hssh, h1, if_neg hcond]

theorem extractVersion_openssh_witness :
    ascii "openssh" <:+: strings.ToLower id (ascii "SSH-2.0-OpenSSH_8.9p1 Ubuntu-3ubuntu0.1") ∧
    extractVersion id (ascii "SSH-2.0-OpenSSH_8.9p1 Ubuntu-3ubuntu0.1") 22
      = some (ascii "openssh_8.9p1 ubuntu") := by
  have h : ascii "openssh"
      <:+: strings.ToLower id (ascii "SSH-2.0-OpenSSH_8.9p1 Ubuntu-3ubuntu0.1") :=
    ⟨ascii "ssh-2.0-", ascii "_8.9p1 ubuntu-3ubuntu0.1", by decide⟩
  refine ⟨h, ?_⟩
  obtain ⟨k, hk, _, _, hlong, _⟩ :=
    extractVersion_openssh id (ascii "SSH-2.0-OpenSSH_8.9p1 Ubuntu-3ubuntu0.1") 22 h
  have h8 : strings.Index (strings.ToLower id (ascii "SSH-2.0-OpenSSH_8.9p1 Ubuntu-3ubuntu0.1"))
      (ascii "openssh") = 8 := by decide
  have hk8 : k = 8 := by
    rw [h8] at hk
    exact_mod_cast hk.symm
  subst hk8
  rw [(hlong (by decide)).1]
  decide

/-- C6 (counterexample): the banner `SSH-2.0-OpenSSH_8.9` of the scenario contains "openssh"
when lower-cased, yet `extractVersion` returns "SSH detected" on port 22, a string that
does not begin with "openssh" and is not the 20-byte substring at the marker. -/
theorem extractVersion_openssh_short_banner :
    ascii "openssh" <:+: strings.ToLower id (ascii "SSH-2.0-OpenSSH_8.9") ∧
    extractVersion id (ascii "SSH-2.0-OpenSSH_8.9") 22 = some (ascii "SSH detected") ∧
    ¬ ascii "openssh" <+: ascii "SSH detected" ∧
    (ascii "SSH detected").length ≠ 20 := by
  refine ⟨⟨ascii "ssh-2.0-", ascii "_8.9", by decide⟩, by decide, ?_, by decide⟩
  intro hp
  have := List.isPrefixOf_iff_prefix.mpr hp
  exact absurd this (by decide)

theorem extractVersion_of_no_pattern (lowerRunes : Bytes → Bytes) (banner : Bytes) (port : Int)
    (hssh : ¬ ascii "ssh" <:+: strings.ToLower lowerRunes banner)
    (hapache : strings.Index (strings.ToLower lowerRunes banner) (ascii "apache/") = -1 ∨
      ((strings.ToLower lowerRunes banner).length : Int)
        ≤ strings.Index (strings.ToLower lowerRunes banner) (ascii "apache/") + 15)
    (hnginx : strings.Index (strings.ToLower lowerRunes banner) (ascii "nginx/") = -1 ∨
      ((strings.ToLower lowerRunes banner).length : Int)
        ≤ strings.Index (strings.ToLower lowerRunes banner) (ascii "nginx/") + 15) :
    extractVersion lowerRunes banner port
      = if port = 21 ∧ strings.Contains (strings.ToLower lowerRunes banner) (ascii "ftp") then
          slice (strings.ToLower lowerRunes banner) 0
            (scanner.min (strings.ToLower lowerRunes banner).length 50)
        else if port = 3306 then some (ascii "MySQL detected")
        else if port = 5432 then some (ascii "PostgreSQL detected")
        else some (ascii "") := by
  have hc := (Contains_eq_false_iff _ _).mpr hssh
  have ha : ¬ (strings.Contains (strings.ToLower lowerRunes banner) (ascii "apache") = true ∧
      strings.Index (strings.ToLower lowerRunes banner) (ascii "apache/") ≠ -1 ∧
      ((strings.ToLower lowerRunes banner).length : Int)
        > strings.Index (strings.ToLower lowerRunes banner) (ascii "apache/") + 15) := by
    rintro ⟨_, h1, h2⟩
    rcases hapache with h | h
    · exact h1 h
    · omega
  have hn : ¬ (strings.Contains (strings.ToLower lowerRunes banner) (ascii "nginx") = true ∧
      strings.Index (strings.ToLower lowerRunes banner) (ascii "nginx/") ≠ -1 ∧
      ((strings.ToLower lowerRunes banner).length : Int)
        > strings.Index (strings.ToLower lowerRunes banner) (ascii "nginx/") + 15) := by
    rintro ⟨_, h1, h2⟩
    rcases hnginx with h | h
    · exact h1 h
    · omega
  unfold extractVersion
  simp only [hc, Bool.false_eq_true, if_false, ha, hn]

/-- C7 (as amended): for every banner whose lower-cased form does not contain "ssh" and in
which neither "apache/" nor "nginx/" occurs with more than 15 bytes from the marker to the
end of the banner, `extractVersion` returns "MySQL detected" on port 3306 and
"PostgreSQL detected" on port 5432. -/
theorem extractVersion_database_ports (lowerRunes : Bytes → Bytes) (banner : Bytes)
    (hssh : ¬ ascii "ssh" <:+: strings.ToLower lowerRunes banner)
    (hapache : strings.Index (strings.ToLower lowerRunes banner) (ascii "apache/") = -1 ∨
      ((strings.ToLower lowerRunes banner).length : Int)
        ≤ strings.Index (strings.ToLower lowerRunes banner) (ascii "apache/") + 15)
    (hnginx : strings.Index (strings.ToLower lowerRunes banner) (ascii "nginx/") = -1 ∨
      ((strings.ToLower lowerRunes banner).length : Int)
        ≤ strings.Index (strings.ToLower lowerRunes banner) (ascii "nginx/") + 15) :
    extractVersion lowerRunes banner 3306 = some (ascii "MySQL detected") ∧
    extractVersion lowerRunes banner 5432 = some (ascii "PostgreSQL detected") := by
  constructor
  · rw [extractVersion_of_no_pattern lowerRunes banner 3306 hssh hapache hnginx]
    simp
  · rw [extractVersion_of_no_pattern lowerRunes banner 5432 hssh hapache hnginx]
    simp

theorem extractVersion_database_ports_witness :
    ¬ ascii "ssh" <:+: strings.ToLower id (ascii "5.7.33 mysql_native_password") ∧
    extractVersion id (ascii "5.7.33 mysql_native_password") 3306
      = some (ascii "MySQL detected") ∧
    extractVersion id (ascii "5.7.33 mysql_native_password") 5432
      = some (ascii "PostgreSQL detected") :=
  have h : ¬ ascii "ssh" <:+: strings.ToLower id (ascii "5.7.33 mysql_native_password") :=
    (Contains_eq_false_iff _ _).mp (by decide)
  ⟨h, extractVersion_database_ports id (ascii "5.7.33 mysql_native_password") h
    (Or.inl (by decide)) (Or.inl (by decide))⟩

/-- C7 (counterexample): on the database ports the result does depend on the banner: a
banner that mentions "ssh" yields "SSH detected" on port 3306 and on port 5432. -/
theorem extractVersion_database_ports_banner_dependent :
    extractVersion id (ascii "Host ssh-gw is not allowed to connect to this MySQL server") 3306
      = some (ascii "SSH detected") ∧
    extractVersion id (ascii "Host ssh-gw is not allowed to connect to this MySQL server") 5432
      = some (ascii "SSH detected") ∧
    ascii "SSH detected" ≠ ascii "MySQL detected" ∧
    ascii "SSH detected" ≠ ascii "PostgreSQL detected" := by
  refine ⟨by decide, by decide, by decide, by decide⟩

/-- None of the slice expressions of `extractVersion` goes out of range. -/
theorem extractVersion_isSome (lowerRunes : Bytes → Bytes) (banner : Bytes) (port : Int) :
    ∃ r, extractVersion lowerRunes banner port = some r := by
  have key : ∀ (s sub : Bytes) (n : Nat),
      strings.Index s sub ≠ -1 ∧ (s.length : Int) > strings.Index s sub + (n : Int) →
      ∃ r, slice s (strings.Index s sub) (strings.Index s sub + (n : Int)) = some r := by
    intro s sub n hc
    rcases Index_spec s sub with ⟨h1, _⟩ | ⟨k, h1, _, _, _⟩
    · exact absurd h1 hc.1
    · rw [h1] at hc ⊢
      exact ⟨_, slice_eq s k n (by omega)⟩
  unfold extractVersion
  simp only
  split_ifs with h1 h2 h3 h4 h5 h6 h7
  · exact key _ _ 20 h2
  · exact ⟨_, rfl⟩
  · exact key _ _ 15 ⟨h3.2.1, h3.2.2⟩
  · exact key _ _ 15 ⟨h4.2.1, h4.2.2⟩
  · unfold slice scanner.min
    split_ifs with h8 h9 h9
    · exact ⟨_, rfl⟩
    · omega
    · exact ⟨_, rfl⟩
    · omega
  · exact ⟨_, rfl⟩
  · exact ⟨_, rfl⟩
  · exact ⟨_, rfl⟩

/-! ### Port scan -/

/-- A goroutine of `ScanPorts` never panics; it appends a record, for its own port and in
state "open", exactly when its connection is established. -/
theorem scanWorker_spec (w : World) (ip : String) (grabBanner : Bool) (p : Int) :
    ∃ o, scanWorker w ip grabBanner p = some o ∧
      ((w.dial (FormatAddress ip p)).errIsNil = false → o = none) ∧
      ((w.dial (FormatAddress ip p)).errIsNil = true →
        ∃ r, o = some r ∧ r.Port = p ∧ r.State = "open") := by
  unfold scanWorker
  simp only
  by_cases hd : (w.dial (FormatAddress ip p)).errIsNil = true
  · simp only [hd, if_true]
    cases grabBanner with
    | false => exact ⟨_, rfl, by simp, fun _ => ⟨_, rfl, by split_ifs <;> rfl, by split_ifs <;> rfl⟩⟩
    | true =>
      simp only [if_true]
      by_cases hb : (w.read (FormatAddress ip p) (sendProbe p)).length > 0
      · simp only [hb, if_true]
        obtain ⟨v, hv⟩ := extractVersion_isSome w.lowerRunes
          (w.trimSpace (w.read (FormatAddress ip p) (sendProbe p))) p
        rw [hv]
        exact ⟨_, rfl, by simp, fun _ => ⟨_, rfl, by split_ifs <;> rfl, by split_ifs <;> rfl⟩⟩
      · simp only [hb, if_false]
        exact ⟨_, rfl, by simp, fun _ => ⟨_, rfl, by split_ifs <;> rfl, by split_ifs <;> rfl⟩⟩
  · have hd2 : (w.dial (FormatAddress ip p)).errIsNil = false := by simpa using hd
    simp only [hd2, Bool.false_eq_true, if_false]
    exact ⟨none, rfl, fun _ => rfl, by simp⟩

theorem perm_cons_eraseIdx (l : List Int) (k : Nat) (hk : k < l.length) :
    l.Perm (l.getD k 0 :: l.eraseIdx k) := by
  induction l generalizing k with
  | nil => simp at hk
  | cons a l ih =>
    cases k with
    | zero => simp
    | succ k =>
      have hk2 : k < l.length := by simpa using hk
      have := ih k hk2
      simp only [List.getD_cons_succ, List.eraseIdx_cons_succ]
      exact (List.Perm.cons a this).trans (List.Perm.swap _ _ _)

/-- The records come from the goroutines in some order of completion. -/
theorem runWorkers_spec (worker : Int → Option (Option PortInfo))
    (hw : ∀ p, ∃ o, worker p = some o) (n : Nat) (pending : List Int) (sched : List Nat)
    (openPorts : List PortInfo) (hn : pending.length = n) :
    ∃ order : List Int, order.Perm pending ∧
      runWorkers worker n pending sched openPorts
        = some (openPorts ++ order.filterMap (fun p => (worker p).join)) := by
  induction n generalizing pending sched openPorts with
  | zero =>
    have : pending = [] := List.length_eq_zero.mp hn
    subst this
    exact ⟨[], List.Perm.refl _, by simp [runWorkers]⟩
  | succ n ih =>
    have hk : sched.headD 0 % pending.length < pending.length :=
      Nat.mod_lt _ (by omega)
    have hperm := perm_cons_eraseIdx pending _ hk
    have hlen : (pending.eraseIdx (sched.headD 0 % pending.length)).length = n := by
      rw [List.length_eraseIdx, if_pos hk]; omega
    obtain ⟨o, ho⟩ := hw (pending.getD (sched.headD 0 % pending.length) 0)
    cases o with
    | none =>
      obtain ⟨order, hp, hr⟩ := ih _ sched.tail openPorts hlen
      refine ⟨pending.getD (sched.headD 0 % pending.length) 0 :: order,
        (List.Perm.cons _ hp).trans hperm.symm, ?_⟩
      rw [runWorkers]
      simp only [ho, hr, List.filterMap_cons, Option.join]
      rfl
    | some r =>
      obtain ⟨order, hp, hr⟩ := ih _ sched.tail (openPorts ++ [r]) hlen
      refine ⟨pending.getD (sched.headD 0 % pending.length) 0 :: order,
        (List.Perm.cons _ hp).trans hperm.symm, ?_⟩
      rw [runWorkers]
      simp only [ho, hr, List.filterMap_cons, Option.join, List.append_assoc,
        List.singleton_append]
      rfl

theorem filterMap_ports (f : Int → Option PortInfo) (ok : Int → Bool)
    (hno : ∀ p, ok p = false → f p = none)
    (hyes : ∀ p, ok p = true → ∃ r, f p = some r ∧ r.Port = p ∧ r.State = "open")
    (l : List Int) :
    (l.filterMap f).map (fun r => r.Port) = l.filter ok ∧
    ∀ r ∈ l.filterMap f, r.State = "open" := by
  induction l with
  | nil => simp
  | cons p l ih =>
    cases hok : ok p with
    | false =>
      rw [List.filterMap_cons, hno p hok, List.filter_cons, hok]
      simpa using ih
    | true =>
      obtain ⟨r, hr, hport, hstate⟩ := hyes p hok
      rw [List.filterMap_cons, hr, List.filter_cons, hok]
      refine ⟨by simp [hport, ih.1], ?_⟩
      intro r2 hr2
      rcases List.mem_cons.mp hr2 with h | h
      · rw [h]; exact hstate
      · exact ih.2 r2 h

/-- C8: with the connection attempt a function of the port, for every duplicate-free list of
candidate ports and every order in which the goroutines finish, `ScanPorts` returns a
collection in which every record belongs to a candidate port whose connection succeeded and
has state "open", with exactly one record for each candidate port that connected and none
for a port that failed; the number of records is the number of candidate ports that
connected. -/
theorem ScanPorts_records (w : World) (sched : List Nat) (ip : String) (ports : List Int)
    (grabBanner : Bool) (hnd : ports.Nodup) :
    ∃ openPorts, ScanPorts w sched ip ports grabBanner = some openPorts ∧
      (∀ r ∈ openPorts, (w.dial (FormatAddress ip r.Port)).errIsNil = true ∧
        r.Port ∈ ports ∧ r.State = "open") ∧
      (∀ p ∈ ports, (w.dial (FormatAddress ip p)).errIsNil = true →
        openPorts.countP (fun r => decide (r.Port = p)) = 1) ∧
      (∀ p, (w.dial (FormatAddress ip p)).errIsNil = false →
        openPorts.countP (fun r => decide (r.Port = p)) = 0) ∧
      openPorts.length
        = (ports.filter (fun p => (w.dial (FormatAddress ip p)).errIsNil)).length := by
  have hw : ∀ p, ∃ o, scanWorker w ip grabBanner p = some o := fun p =>
    (scanWorker_spec w ip grabBanner p).imp (fun _ h => h.1)
  obtain ⟨order, hperm, hrun⟩ :=
    runWorkers_spec (scanWorker w ip grabBanner) hw ports.length ports sched [] rfl
  have hno : ∀ p, (w.dial (FormatAddress ip p)).errIsNil = false →
      (scanWorker w ip grabBanner p).join = none := by
    intro p hp
    obtain ⟨o, ho, h1, _⟩ := scanWorker_spec w ip grabBanner p
    rw [ho, h1 hp]; rfl
  have hyes : ∀ p, (w.dial (FormatAddress ip p)).errIsNil = true →
      ∃ r, (scanWorker w ip grabBanner p).join = some r ∧ r.Port = p ∧ r.State = "open" := by
    intro p hp
    obtain ⟨o, ho, _, h2⟩ := scanWorker_spec w ip grabBanner p
    obtain ⟨r, hr, hport, hstate⟩ := h2 hp
    exact ⟨r, by rw [ho, hr]; rfl, hport, hstate⟩
  obtain ⟨hmap, hstate⟩ := filterMap_ports (fun p => (scanWorker w ip grabBanner p).join)
    (fun p => (w.dial (FormatAddress ip p)).errIsNil) hno hyes order
  have hcount : ∀ p, (order.filterMap (fun p => (scanWorker w ip grabBanner p).join)).countP
        (fun r => decide (r.Port = p))
      = (order.filter (fun p => (w.dial (FormatAddress ip p)).errIsNil)).count p := by
    intro p
    rw [← hmap, List.count, List.countP_map]
    apply List.countP_congr
    intro r _
    simp
  have hnd2 : (order.filter (fun p => (w.dial (FormatAddress ip p)).errIsNil)).Nodup :=
    (hperm.nodup_iff.mpr hnd).filter _
  refine ⟨order.filterMap (fun p => (scanWorker w ip grabBanner p).join), ?_, ?_, ?_, ?_, ?_⟩
  · unfold ScanPorts
    rw [hrun]; rfl
  · intro r hr
    have hmem : r.Port ∈ order.filter (fun p => (w.dial (FormatAddress ip p)).errIsNil) := by
      rw [← hmap]
      exact List.mem_map_of_mem _ hr
    rw [List.mem_filter] at hmem
    exact ⟨hmem.2, hperm.mem_iff.mp hmem.1, hstate r hr⟩
  · intro p hp hok
    rw [hcount p]
    exact List.count_eq_one_of_mem hnd2 (List.mem_filter.mpr ⟨hperm.mem_iff.mpr hp, hok⟩)
  · intro p hfail
    rw [hcount p]
    apply List.count_eq_zero_of_not_mem
    intro hmem
    rw [List.mem_filter] at hmem
    rw [hfail] at hmem
    exact absurd hmem.2 (by simp)
  · have h1 := congrArg List.length hmap
    rw [List.length_map] at h1
    rw [h1]
    exact (hperm.filter _).length_eq

theorem ScanPorts_records_witness :
    ([22, 80, 3306] : List Int).Nodup ∧
    ∃ openPorts, ScanPorts (constWorld DialResult.connected false) [2, 0] "192.0.2.1"
        [22, 80, 3306] false = some openPorts ∧ openPorts.length = 3 := by
  refine ⟨by decide, ?_⟩
  obtain ⟨openPorts, h, _, _, _, hlen⟩ :=
    ScanPorts_records (constWorld DialResult.connected false) [2, 0] "192.0.2.1"
      [22, 80, 3306] false (by decide)
  exact ⟨openPorts, h, by rw [hlen]; rfl⟩

/-! ### Liveness -/

theorem errIsNil_iff (d : DialResult) : d.errIsNil = true ↔ d = DialResult.connected := by
  cases d <;> simp [DialResult.errIsNil]

/-- C9: with the two probes as inputs, `isHostAlive` returns true if and only if the connect
to port 80 succeeded or the echo command succeeded; and when the connect succeeds the
verdict is true in every world with the same dial outcomes, whatever its echo outcome, and
no echo command is run. -/
theorem isHostAlive_iff (w : World) (ip : String) :
    ((isHostAlive w ip).1 = true ↔
      (w.dial (FormatAddress ip 80) = DialResult.connected ∨
        w.run (pingCommand w.goos ip) = true)) ∧
    (w.dial (FormatAddress ip 80) = DialResult.connected →
      ∀ w2 : World, w2.dial = w.dial → isHostAlive w2 ip = (true, [])) := by
  constructor
  · unfold isHostAlive
    by_cases h : (w.dial (FormatAddress ip 80)).errIsNil = true
    · simp [h, (errIsNil_iff _).mp h, DialResult.errIsNil]
    · have hne : w.dial (FormatAddress ip 80) ≠ DialResult.connected :=
        fun hc => h ((errIsNil_iff _).mpr hc)
      simp [h, hne]
  · intro hc w2 hw
    unfold isHostAlive
    simp only [hw, hc, DialResult.errIsNil, if_true]

theorem isHostAlive_iff_witness :
    (constWorld DialResult.connected false).dial (FormatAddress "192.0.2.1" 80)
      = DialResult.connected ∧
    isHostAlive (constWorld DialResult.connected false) "192.0.2.1" = (true, []) :=
  ⟨rfl, (isHostAlive_iff (constWorld DialResult.connected false) "192.0.2.1").2 rfl
    (constWorld DialResult.connected false) rfl⟩

/-- C10 (as amended): when the connect to port 80 is actively refused, exactly as when it
times out or cannot be attempted, `isHostAlive` runs the echo command and returns its
outcome as the verdict. -/
theorem isHostAlive_not_connected (w : World) (ip : String)
    (h : w.dial (FormatAddress ip 80) = DialResult.refused ∨
      w.dial (FormatAddress ip 80) = DialResult.timedOut) :
    isHostAlive w ip = (w.run (pingCommand w.goos ip), [pingCommand w.goos ip]) := by
  unfold isHostAlive
  rcases h with h | h <;> simp only [h, DialResult.errIsNil, Bool.false_eq_true, if_false]

theorem isHostAlive_not_connected_witness :
    (constWorld DialResult.refused true).dial (FormatAddress "192.0.2.1" 80)
      = DialResult.refused ∧
    isHostAlive (constWorld DialResult.refused true) "192.0.2.1"
      = (true, [["ping", "-c", "1", "-W", "1", "192.0.2.1"]]) :=
  ⟨rfl, isHostAlive_not_connected (constWorld DialResult.refused true) "192.0.2.1"
    (Or.inl rfl)⟩

/-- C10 (counterexample): a host that actively refuses the connection to port 80 and does
not answer the echo probe is reported as not live. -/
theorem isHostAlive_refused_not_live :
    (constWorld DialResult.refused false).dial (FormatAddress "192.0.2.1" 80)
      = DialResult.refused ∧
    (isHostAlive (constWorld DialResult.refused false) "192.0.2.1").1 = false := by
  exact ⟨rfl, rfl⟩

/-! ### Port-set selection -/

/-- With `-deep` off, every value of `-ports` other than "common" and "all" selects the
common ports. -/
theorem portsToScan_default (portRange : String) (h1 : portRange ≠ "common")
    (h2 : portRange ≠ "all") : (portsToScan false portRange).1 = CommonPorts := by
  simp [portsToScan, h1, h2]

/-- C12: with `-deep` off the custom list "3306" is not what the per-host scan receives:
`portsToScan` is the list of the 50 common ports, and the `default` branch prints that
custom lists are not implemented; likewise the custom list "9999" selects the common
ports, none of which is 9999. -/
theorem portsToScan_custom_list :
    portsToScan false "3306"
      = (CommonPorts, some "Custom port list not fully implemented, using common ports") ∧
    CommonPorts.length = 50 ∧
    CommonPorts ≠ [3306] ∧
    (portsToScan false "9999").1 = CommonPorts ∧
    (9999 : Int) ∉ CommonPorts := by
  refine ⟨by decide, by decide, by decide, by decide, by decide⟩

/-! ### Discovery -/

theorem discoverWorker_not_alive (w : World) (r : Resolver) (ipStr : String)
    (h : (isHostAlive w ipStr).1 = false) : discoverWorker w r ipStr = none := by
  simp [discoverWorker, h]

theorem DiscoverDevices_none_alive (w : World) (r : Resolver) (sched : List Nat)
    (cidr : RangeSpec) (fuel : Nat) (devices : List Device) (probed : List String)
    (hdead : ∀ ip, (isHostAlive w ip).1 = false)
    (h : DiscoverDevices w r sched cidr fuel = some (devices, probed)) : devices = [] := by
  unfold DiscoverDevices at h
  cases hp : parseRange cidr with
  | none =>
    rw [hp] at h
    simp only [Option.some.injEq, Prod.mk.injEq] at h
    exact h.1.symm
  | some pr =>
    obtain ⟨ip, ipnet⟩ := pr
    rw [hp] at h
    simp only at h
    cases hl : discoverLoop ipnet fuel (Mask ip ipnet.Mask) with
    | none => rw [hl] at h; simp at h
    | some addrs =>
      rw [hl] at h
      simp only [Option.some.injEq, Prod.mk.injEq] at h
      rw [← h.1]
      apply List.filterMap_eq_nil_iff.mpr
      intro x _
      exact discoverWorker_not_alive w r x (hdead x)

theorem mainPhase1_of_devices (w : World) (r : Resolver) (sched : List Nat)
    (cidr : RangeSpec) (fuel : Nat) (probed : List String)
    (h : DiscoverDevices w r sched cidr fuel = some ([], probed)) :
    mainPhase1 w r sched cidr fuel = some DiscoveryReport.noDevicesFound := by
  unfold mainPhase1
  rw [h]
  rfl

/-- C13 (as amended): for every range specification that cannot be parsed, `DiscoverDevices`
returns the empty device list without calling `isHostAlive` on any address, and `main`
reports that no devices were found; a valid range in which no address is live gives the
same device list and the same report. -/
theorem DiscoverDevices_parse_error (w : World) (r : Resolver) (sched : List Nat)
    (cidr : RangeSpec) (fuel : Nat) (h : parseRange cidr = none) :
    DiscoverDevices w r sched cidr fuel = some ([], []) ∧
    mainPhase1 w r sched cidr fuel = some DiscoveryReport.noDevicesFound ∧
    (∀ (cidr2 : RangeSpec) (fuel2 : Nat) (devices : List Device) (probed : List String),
      (∀ ip, (isHostAlive w ip).1 = false) →
      DiscoverDevices w r sched cidr2 fuel2 = some (devices, probed) →
      devices = [] ∧
      mainPhase1 w r sched cidr2 fuel2 = some DiscoveryReport.noDevicesFound) := by
  have h1 : DiscoverDevices w r sched cidr fuel = some ([], []) := by
    unfold DiscoverDevices
    rw [h]
  refine ⟨h1, mainPhase1_of_devices w r sched cidr fuel [] h1, ?_⟩
  intro cidr2 fuel2 devices probed hdead hd
  have hnil := DiscoverDevices_none_alive w r sched cidr2 fuel2 devices probed hdead hd
  subst hnil
  exact ⟨rfl, mainPhase1_of_devices w r sched cidr2 fuel2 probed hd⟩

theorem DiscoverDevices_parse_error_witness :
    parseRange (some ([192, 0, 2, 0], 33)) = none ∧
    DiscoverDevices (constWorld DialResult.connected true) plainResolver []
      (some ([192, 0, 2, 0], 33)) 10 = some ([], []) :=
  ⟨by decide,
    (DiscoverDevices_parse_error (constWorld DialResult.connected true) plainResolver []
      (some ([192, 0, 2, 0], 33)) 10 (by decide)).1⟩

/-- C13 (counterexample): the unparsable range `192.0.2.0/33` and the valid range
`192.0.2.0/30` with no live address have the same outcome: the same (empty) device list
from `DiscoverDevices` and the same report from `main`; only the second one probed any
address. -/
theorem DiscoverDevices_parse_error_not_distinguished :
    parseRange (some ([192, 0, 2, 0], 33)) = none ∧
    parseRange (some ([192, 0, 2, 0], 30)) ≠ none ∧
    (DiscoverDevices (constWorld DialResult.timedOut false) plainResolver []
        (some ([192, 0, 2, 0], 33)) 10).map (fun res => res.1) = some [] ∧
    (DiscoverDevices (constWorld DialResult.timedOut false) plainResolver []
        (some ([192, 0, 2, 0], 30)) 10).map (fun res => res.1) = some [] ∧
    (DiscoverDevices (constWorld DialResult.timedOut false) plainResolver []
        (some ([192, 0, 2, 0], 30)) 10).map (fun res => res.2.length) = some 4 ∧
    mainPhase1 (constWorld DialResult.timedOut false) plainResolver []
        (some ([192, 0, 2, 0], 33)) 10
      = mainPhase1 (constWorld DialResult.timedOut false) plainResolver []
        (some ([192, 0, 2, 0], 30)) 10 := by
  have hl : discoverLoop { IP := [192, 0, 2, 0], Mask := [255, 255, 255, 252] } 10 [192, 0, 2, 0]
      = some [[192, 0, 2, 0], [192, 0, 2, 1], [192, 0, 2, 2], [192, 0, 2, 3]] := by decide
  have hp : parseRange (some ([192, 0, 2, 0], 30))
      = some (v4InV6Prefix ++ [192, 0, 2, 0],
          { IP := [192, 0, 2, 0], Mask := [255, 255, 255, 252] }) := by decide
  have hd : DiscoverDevices (constWorld DialResult.timedOut false) plainResolver []
      (some ([192, 0, 2, 0], 30)) 10
      = some ([], [[192, 0, 2, 0], [192, 0, 2, 1], [192, 0, 2, 2], [192, 0, 2, 3]].map
          plainResolver.ipString) := by
    unfold DiscoverDevices
    rw [hp]
    have hm : Mask (v4InV6Prefix ++ [192, 0, 2, 0]) [255, 255, 255, 252] = [192, 0, 2, 0] := by
      decide
    simp only [hm, hl]
    rw [List.filterMap_eq_nil_iff.mpr
      (fun x _ => discoverWorker_not_alive (constWorld DialResult.timedOut false)
        plainResolver x rfl)]
  have hbad : DiscoverDevices (constWorld DialResult.timedOut false) plainResolver []
      (some ([192, 0, 2, 0], 33)) 10 = some ([], []) := by
    unfold DiscoverDevices
    have : parseRange (some ([192, 0, 2, 0], 33)) = none := by decide
    rw [this]
  refine ⟨by decide, by rw [hp]; simp, by rw [hbad]; rfl, by rw [hd]; rfl, by rw [hd]; rfl, ?_⟩
  rw [mainPhase1_of_devices _ _ _ _ _ _ hbad, mainPhase1_of_devices _ _ _ _ _ _ hd]

/-! ### Termination of the enumeration -/

theorem discoverLoop_length_lt (ipnet : IPNet) (fuel : Nat) (ip : Bytes) (l : List Bytes)
    (h : discoverLoop ipnet fuel ip = some l) : l.length < fuel := by
  induction fuel generalizing ip l with
  | zero => simp [discoverLoop] at h
  | succ fuel ih =>
    rw [discoverLoop] at h
    split_ifs at h with hc
    · cases hr : discoverLoop ipnet fuel (IncrementIP ip) with
      | none => rw [hr] at h; simp at h
      | some l2 =>
        rw [hr] at h
        simp only [Option.map_some', Option.some.injEq] at h
        rw [← h, List.length_cons]
        have := ih _ _ hr
        omega
    · simp only [Option.some.injEq] at h
      rw [← h]
      simp

theorem discoverLoop_mono (ipnet : IPNet) (fuel : Nat) (ip : Bytes) (l : List Bytes)
    (h : discoverLoop ipnet fuel ip = some l) (k : Nat) :
    discoverLoop ipnet (fuel + k) ip = some l := by
  induction fuel generalizing ip l with
  | zero => simp [discoverLoop] at h
  | succ fuel ih =>
    have e : fuel + 1 + k = (fuel + k) + 1 := by omega
    rw [e, discoverLoop]
    rw [discoverLoop] at h
    split_ifs at h with hc
    · cases hr : discoverLoop ipnet fuel (IncrementIP ip) with
      | none => rw [hr] at h; simp at h
      | some l2 =>
        rw [hr] at h
        rw [if_pos hc, ih _ _ hr]
        exact h
    · rw [if_neg hc]
      exact h

theorem ParseCIDR_ipv4 (a0 a1 a2 a3 p : Nat) (hp : p ≤ 32) :
    ParseCIDR [a0, a1, a2, a3] (p : Int)
      = some (v4InV6Prefix ++ [a0, a1, a2, a3],
          { IP := Mask (v4InV6Prefix ++ [a0, a1, a2, a3]) (CIDRMask (p : Int) 32),
            Mask := CIDRMask (p : Int) 32 }) := by
  unfold ParseCIDR
  have h1 : ¬ (([a0, a1, a2, a3] : Bytes).length ≠ 4 ∧ ([a0, a1, a2, a3] : Bytes).length ≠ 16) := by
    simp
  have h2 : ¬ ((p : Int) < 0 ∨ (p : Int) > 8 * (([a0, a1, a2, a3] : Bytes).length : Int)) := by
    simp only [List.length_cons, List.length_nil]
    push_cast
    omega
  rw [if_neg h1]
  simp only [h2, if_false]
  simp

/-- C14: for every IPv4 range with prefix length `p`, `1 ≤ p ≤ 32`, the enumeration loop of
`DiscoverDevices` terminates after exactly `2^(32-p)` iterations: with more fuel than that
it has exited after probing `2^(32-p)` addresses, with no more fuel than that it is still
running.  When the range holds `255.255.255.255`, `IncrementIP` wraps that address to
`0.0.0.0`, which the range does not contain, so the loop stops there. -/
theorem discoverAddresses_terminates (addr : Bytes) (p : Nat) (hlen : addr.length = 4)
    (hb : IsBytes addr) (hp1 : 1 ≤ p) (hp2 : p ≤ 32) :
    (∀ fuel, 2 ^ (32 - p) < fuel →
      ∃ addrs, discoverAddresses addr (p : Int) fuel = some addrs ∧
        addrs.length = 2 ^ (32 - p)) ∧
    (∀ fuel, fuel ≤ 2 ^ (32 - p) → discoverAddresses addr (p : Int) fuel = none) ∧
    (∀ ip ipnet, ParseCIDR addr (p : Int) = some (ip, ipnet) →
      ipnet.Contains [255, 255, 255, 255] = true →
      IncrementIP [255, 255, 255, 255] = [0, 0, 0, 0] ∧
      ipnet.Contains [0, 0, 0, 0] = false) := by
  have hrun : ∀ fuel, 2 ^ (32 - p) < fuel →
      ∃ addrs, discoverAddresses addr (p : Int) fuel = some addrs ∧
        addrs.length = 2 ^ (32 - p) := by
    intro fuel hfuel
    exact ⟨_, discoverAddresses_ipv4 addr p fuel hlen hb hp1 hp2 hfuel, by simp⟩
  refine ⟨hrun, ?_, ?_⟩
  · intro fuel hfuel
    cases hr : discoverAddresses addr (p : Int) fuel with
    | none => rfl
    | some l =>
      exfalso
      obtain ⟨a0, a1, a2, a3, rfl⟩ := length_four addr hlen
      have hparse := ParseCIDR_ipv4 a0 a1 a2 a3 p hp2
      obtain ⟨addrs, hbig, hlenA⟩ := hrun (fuel + (2 ^ (32 - p) + 1 - fuel)) (by omega)
      unfold discoverAddresses at hr hbig
      rw [hparse] at hr hbig
      simp only at hr hbig
      have hlt := discoverLoop_length_lt _ _ _ _ hr
      have hm := discoverLoop_mono _ _ _ _ hr (2 ^ (32 - p) + 1 - fuel)
      rw [hm] at hbig
      simp only [Option.some.injEq] at hbig
      rw [hbig] at hlt
      omega
  · intro ip ipnet hparse hlast
    obtain ⟨a0, a1, a2, a3, rfl⟩ := length_four addr hlen
    rw [ParseCIDR_ipv4 a0 a1 a2 a3 p hp2] at hparse
    simp only [Option.some.injEq, Prod.mk.injEq] at hparse
    obtain ⟨_, rfl⟩ := hparse
    refine ⟨by decide, ?_⟩
    have h255 := (Contains_iff_div p hp2 a0 a1 a2 a3 255 255 255 255 hb (by decide)).mp hlast
    have hS : 0 < 2 ^ (32 - p) := Nat.pos_pow_of_pos _ (by norm_num)
    have hle : 2 ^ (32 - p) ≤ 2 ^ 31 := Nat.pow_le_pow_right (by norm_num) (by omega)
    have hv : beValue [255, 255, 255, 255] = 4294967295 := by decide
    have hpos : 0 < beValue [255, 255, 255, 255] / 2 ^ (32 - p) := by
      rw [hv]
      apply Nat.div_pos _ hS
      have : (2 : Nat) ^ 31 = 2147483648 := by norm_num
      omega
    by_contra hc
    have hc2 : IPNet.Contains
        { IP := Mask (v4InV6Prefix ++ [a0, a1, a2, a3]) (CIDRMask (p : Int) 32),
          Mask := CIDRMask (p : Int) 32 } [0, 0, 0, 0] = true := by
      simpa using hc
    have h0 := (Contains_iff_div p hp2 a0 a1 a2 a3 0 0 0 0 hb (by decide)).mp hc2
    have hz : beValue [0, 0, 0, 0] = 0 := by decide
    rw [hz, Nat.zero_div] at h0
    omega

theorem discoverAddresses_terminates_witness :
    ([255, 255, 255, 254] : Bytes).length = 4 ∧ IsBytes [255, 255, 255, 254] ∧
    (1 ≤ 31 ∧ 31 ≤ 32) ∧
    ∃ addrs, discoverAddresses [255, 255, 255, 254] 31 3 = some addrs ∧ addrs.length = 2 :=
  ⟨rfl, by decide, by decide,
    (discoverAddresses_terminates [255, 255, 255, 254] 31 rfl (by decide) (by decide)
      (by decide)).1 3 (by decide)⟩

/-! ### Totality of the fingerprint extraction -/

/-- A guarded slice at the offset returned by `strings.Index` is in range and yields `n`
bytes of the string. -/
theorem slice_at_Index (s sub : Bytes) (n : Nat)
    (hc : strings.Index s sub ≠ -1 ∧ (s.length : Int) > strings.Index s sub + (n : Int)) :
    ∃ r, slice s (strings.Index s sub) (strings.Index s sub + (n : Int)) = some r ∧
      r <:+: s ∧ r.length = n := by
  rcases Index_spec s sub with ⟨h1, _⟩ | ⟨k, h1, _, _, _⟩
  · exact absurd h1 hc.1
  · rw [h1] at hc ⊢
    refine ⟨_, slice_eq s k n (by omega), ?_, ?_⟩
    · exact ((List.take_prefix n (s.drop k)).isInfix).trans (List.drop_suffix k s).isInfix
    · rw [List.length_take, List.length_drop]
      omega

/-- C15: `extractVersion` is total: for every banner and every port none of its slice
expressions goes out of range, and the result is the empty string, one of "SSH detected",
"MySQL detected", "PostgreSQL detected", or a contiguous substring of the lower-cased
banner of at most 50 bytes. -/
theorem extractVersion_total (lowerRunes : Bytes → Bytes) (banner : Bytes) (port : Int) :
    ∃ r, extractVersion lowerRunes banner port = some r ∧
      (r = ascii "" ∨ r = ascii "SSH detected" ∨ r = ascii "MySQL detected" ∨
        r = ascii "PostgreSQL detected" ∨
        (r <:+: strings.ToLower lowerRunes banner ∧ r.length ≤ 50)) := by
  unfold extractVersion
  simp only
  split_ifs with h1 h2 h3 h4 h5 h6 h7
  · obtain ⟨r, hr, hin, hl⟩ := slice_at_Index _ _ 20 h2
    exact ⟨r, hr, Or.inr (Or.inr (Or.inr (Or.inr ⟨hin, by omega⟩)))⟩
  · exact ⟨_, rfl, Or.inr (Or.inl rfl)⟩
  · obtain ⟨r, hr, hin, hl⟩ := slice_at_Index _ _ 15 ⟨h3.2.1, h3.2.2⟩
    exact ⟨r, hr, Or.inr (Or.inr (Or.inr (Or.inr ⟨hin, by omega⟩)))⟩
  · obtain ⟨r, hr, hin, hl⟩ := slice_at_Index _ _ 15 ⟨h4.2.1, h4.2.2⟩
    exact ⟨r, hr, Or.inr (Or.inr (Or.inr (Or.inr ⟨hin, by omega⟩)))⟩
  · unfold slice scanner.min
    split_ifs with h8 h9 h9
    · refine ⟨_, rfl, Or.inr (Or.inr (Or.inr (Or.inr ⟨?_, ?_⟩)))⟩
      · exact ((List.take_prefix _ _).isInfix).trans (List.drop_suffix _ _).isInfix
      · rw [List.length_take]
        omega
    · omega
    · refine ⟨_, rfl, Or.inr (Or.inr (Or.inr (Or.inr ⟨?_, ?_⟩)))⟩
      · exact ((List.take_prefix _ _).isInfix).trans (List.drop_suffix _ _).isInfix
      · rw [List.length_take]
        omega
    · omega
  · exact ⟨_, rfl, Or.inr (Or.inr (Or.inl rfl))⟩
  · exact ⟨_, rfl, Or.inr (Or.inr (Or.inr (Or.inl rfl)))⟩
  · exact ⟨_, rfl, Or.inl rfl⟩

end NetworkScanner
